import Mathlib

/-!
Verification of the Renovate configuration editor (a Vue single-page app).

The development shallowly embeds the two cores of the repository:

* the configuration resolver of `UrlInput.vue` (`getGitHubRawUrls`,
  `tryFetch`, `loadConfig`), and
* the form synchronizer of `RenovateEditor.vue` (the `watch` load
  normalization, `cleanConfig`, `switchToVisualMode`, `addToArray`,
  `removeFromArray`, …).

Modelling conventions:

* A JSON document is the inductive `Json` below.  JavaScript objects are
  modelled as association lists in property-insertion order; a JavaScript
  object never has duplicate keys, so lists representing objects are
  assumed `nodupKeys` where reasoning requires it.  (The exotic JavaScript
  rule that integer-like keys enumerate first is not modelled; no claim
  depends on it.)
* A property whose value is JavaScript `undefined` is invisible to
  `JSON.stringify` and to every observation the editor makes of a
  document, so such properties are modelled as absent keys.
* `JSON.parse(JSON.stringify(x))` (the deep copy) is the identity on this
  value model and is therefore dropped; mutation is modelled by returning
  the updated document.
* Numbers are modelled as `Int` (no claim performs arithmetic on them).
* A JavaScript runtime exception (`TypeError` from a property access on
  `null`, calling `.map`/`.push`/`.filter` on a non-array, or a strict-mode
  property assignment on a primitive) is modelled as `Option.none`.
* The browser `fetch`+`JSON5.parse` pair and the strict `JSON.parse` /
  `JSON.stringify` pair are external collaborators (spec §6) and are
  passed as oracle parameters.
-/

namespace LordRenovate

/-- A JSON value, as held by the editor. -/
inductive Json where
  | null
  | bool (b : Bool)
  | num (n : Int)
  | str (s : String)
  | arr (elems : List Json)
  | obj (fields : List (String × Json))
deriving Repr

/-- JavaScript truthiness of a JSON value. -/
def truthy : Json → Bool
  | .null => false
  | .bool b => b
  | .num n => n != 0
  | .str s => s != ""
  | .arr _ => true
  | .obj _ => true

/-- Is the value an object? -/
def Json.isObj : Json → Bool
  | .obj _ => true
  | _ => false

/-- Is the value an array? -/
def Json.isArr : Json → Bool
  | .arr _ => true
  | _ => false

/-- Is the value a string? -/
def Json.isStr : Json → Bool
  | .str _ => true
  | _ => false

/-- Property read on an association list (JavaScript `o[k]`; `none` is
`undefined`). -/
def lookupKv : List (String × Json) → String → Option Json
  | [], _ => none
  | (k', v) :: rest, k => if k = k' then some v else lookupKv rest k

/-- Property write on an association list (JavaScript `o[k] = v`): an
existing key keeps its position, a new key is appended. -/
def setKey : List (String × Json) → String → Json → List (String × Json)
  | [], k, v => [(k, v)]
  | (k', v') :: rest, k, v =>
      if k = k' then (k', v) :: rest else (k', v') :: setKey rest k v

/-- The keys of an association list, in order. -/
def keysOf (kvs : List (String × Json)) : List String := kvs.map Prod.fst

/-- No key occurs twice (every list representing a JavaScript object
satisfies this). -/
def nodupKeys : List (String × Json) → Bool
  | [] => true
  | (k, _) :: rest => !(rest.any (fun kv => kv.1 == k)) && nodupKeys rest

/-- No string occurs twice (the key lists of JavaScript objects). -/
def nodupKeysL : List String → Bool
  | [] => true
  | k :: rest => !(rest.any (fun x => x == k)) && nodupKeysL rest

/-- The index keys of a JavaScript array, as string-keyed properties. -/
def idxKvs (xs : List Json) : List (String × Json) :=
  xs.enum.map (fun p => (toString p.1, p.2))

/-- The index keys of a JavaScript string, as string-keyed properties. -/
def strKvs (s : String) : List (String × Json) :=
  s.data.enum.map (fun p => (toString p.1, Json.str (String.singleton p.2)))

/-- The own enumerable properties of a value, as seen by property reads,
spreads and `Object.keys`; `none` models the `TypeError` raised by a
property access on `null`. -/
def entryProps : Json → Option (List (String × Json))
  | .null => none
  | .obj kvs => some kvs
  | .arr xs => some (idxKvs xs)
  | .str s => some (strKvs s)
  | .bool _ => some []
  | .num _ => some []

/-- Property read `v[k]` for non-`null` `v`, including the non-enumerable
`length` of arrays and strings (needed by `x[k] === undefined` tests). -/
def jsGetProp (v : Json) (k : String) : Option Json :=
  match v with
  | .arr xs => if k = "length" then some (.num xs.length) else lookupKv (idxKvs xs) k
  | .str s => if k = "length" then some (.num s.length) else lookupKv (strKvs s) k
  | .obj kvs => lookupKv kvs k
  | _ => none

/-- Property write on a document (`doc[k] = x`); on an array only an
existing index is JSON-visible, every other write on a non-object is
invisible to the serialized document. -/
def jsSet (v : Json) (k : String) (x : Json) : Json :=
  match v with
  | .obj kvs => .obj (setKey kvs k x)
  | .arr xs =>
      match k.toNat? with
      | some i => if i < xs.length then .arr (xs.set i x) else v
      | none => v
  | _ => v

/-! ### Form synchronizer: load normalization (`watch` in `RenovateEditor.vue`) -/

/-- JavaScript `a || d` for a possibly-undefined property value `a`. -/
def jsOr (o : Option Json) (d : Json) : Json :=
  match o with
  | some v => if truthy v then v else d
  | none => d

/-- The object-literal part of the `watch` normalizer, evaluated before the
final `...rule` spread:
`{ groupName: rule.groupName || '', …, automerge: rule.automerge,
automergeType: rule.automergeType || 'branch' }`.
(`automerge: rule.automerge` with `rule.automerge` undefined yields a key
holding `undefined`, which is an absent key in this model.) -/
def normalizeBase (rule : List (String × Json)) : List (String × Json) :=
  [("groupName", jsOr (lookupKv rule "groupName") (.str "")),
   ("matchManagers", jsOr (lookupKv rule "matchManagers") (.arr [])),
   ("matchDatasources", jsOr (lookupKv rule "matchDatasources") (.arr [])),
   ("matchFileNames", jsOr (lookupKv rule "matchFileNames") (.arr [])),
   ("matchUpdateTypes", jsOr (lookupKv rule "matchUpdateTypes") (.arr [])),
   ("matchDepTypes", jsOr (lookupKv rule "matchDepTypes") (.arr [])),
   ("matchCurrentVersion", jsOr (lookupKv rule "matchCurrentVersion") (.str ""))]
  ++ (match lookupKv rule "automerge" with
      | some v => [("automerge", v)]
      | none => [])
  ++ [("automergeType", jsOr (lookupKv rule "automergeType") (.str "branch"))]

/-- The `...extra` object spread: assign every property of `extra` onto
`acc` in order. -/
def spreadFold (acc : List (String × Json)) (extra : List (String × Json)) :
    List (String × Json) :=
  extra.foldl (fun a kv => setKey a kv.1 kv.2) acc

/-- One package rule after the `watch` normalizer:
`{ groupName: …, …, automergeType: …, ...rule }`. -/
def normalizeRule (rule : List (String × Json)) : List (String × Json) :=
  spreadFold (normalizeBase rule) rule

/-- Normalization of one entry of `packageRules`; `none` models the
`TypeError` of `rule.groupName` when the entry is `null`. -/
def normalizeEntry (e : Json) : Option Json :=
  (entryProps e).map (fun kvs => Json.obj (normalizeRule kvs))

/-- The `watch` handler body: deep-copy the incoming document (identity
here) and, when `packageRules` is truthy, `.map` the normalizer over it;
`none` models a thrown `TypeError` (`.map` on a truthy non-array, or a
`null` rule entry or document). -/
def loadNormalize (doc : Json) : Option Json :=
  match entryProps doc with
  | none => none
  | some kvs =>
    match lookupKv kvs "packageRules" with
    | some pr =>
        if truthy pr then
          match pr with
          | .arr rules =>
              (rules.mapM normalizeEntry).map
                (fun rs => jsSet doc "packageRules" (.arr rs))
          | _ => none
        else some doc
    | none => some doc

/-! ### Form synchronizer: export minimization (`cleanConfig`) -/

/-- `arr.filter(v => v !== '' && v !== null && v !== undefined)`
(the local `cleanArray`; there is no `undefined` element in this model). -/
def cleanArray (xs : List Json) : List Json :=
  xs.filter (fun v =>
    match v with
    | .null => false
    | .str s => s != ""
    | _ => true)

/-- `rule.f || []` followed by use as an array: a truthy non-array makes
`.filter` throw (`none`), a falsy value falls back to `[]`. -/
def arrOrThrow : Option Json → Option (List Json)
  | none => some []
  | some (.arr xs) => some xs
  | some v => if truthy v then none else some []

/-- `if (o) cleaned[k] = o` — emit the property only when its value is
defined and truthy. -/
def optField (o : Option Json) (k : String) : List (String × Json) :=
  match o with
  | some v => if truthy v then [(k, v)] else []
  | none => []

/-- The nine rule-field names recognized by `cleanConfig` (lines 97–99). -/
def fixedRuleNames : List String :=
  ["groupName", "matchManagers", "matchDatasources", "matchFileNames",
   "matchUpdateTypes", "matchDepTypes", "matchCurrentVersion",
   "automerge", "automergeType"]

/-- `cleanConfig`'s per-rule minimizer: build `cleanedRule` property by
property, then copy every key outside `fixedRuleNames` verbatim. -/
def cleanRule (rule : List (String × Json)) : Option (List (String × Json)) := do
  let mm ← arrOrThrow (lookupKv rule "matchManagers")
  let md ← arrOrThrow (lookupKv rule "matchDatasources")
  let mf ← arrOrThrow (lookupKv rule "matchFileNames")
  let mu ← arrOrThrow (lookupKv rule "matchUpdateTypes")
  let mdt ← arrOrThrow (lookupKv rule "matchDepTypes")
  let managers := cleanArray mm
  let datasources := cleanArray md
  let fileNames := cleanArray mf
  let updateTypes := cleanArray mu
  let depTypes := cleanArray mdt
  pure (optField (lookupKv rule "groupName") "groupName"
    ++ ((if 0 < managers.length then [("matchManagers", Json.arr managers)] else [])
    ++ ((if 0 < datasources.length then [("matchDatasources", Json.arr datasources)] else [])
    ++ ((if 0 < fileNames.length then [("matchFileNames", Json.arr fileNames)] else [])
    ++ ((if 0 < updateTypes.length then [("matchUpdateTypes", Json.arr updateTypes)] else [])
    ++ ((if 0 < depTypes.length then [("matchDepTypes", Json.arr depTypes)] else [])
    ++ (optField (lookupKv rule "matchCurrentVersion") "matchCurrentVersion"
    ++ ((match lookupKv rule "automerge" with
        | some v => [("automerge", v)]
        | none => [])
    ++ ((match lookupKv rule "automerge" with
        | some (.bool true) => optField (lookupKv rule "automergeType") "automergeType"
        | _ => [])
    ++ rule.filter (fun kv => !(fixedRuleNames.contains kv.1)))))))))))

/-- Minimization of one entry of `packageRules` (`Object.keys`/property
reads on a `null` entry throw). -/
def cleanRuleEntry (e : Json) : Option Json :=
  match entryProps e with
  | none => none
  | some kvs => (cleanRule kvs).map Json.obj

/-- `cleanConfig`: deep-copy (identity here) and, when `packageRules` is
truthy, `.map` the per-rule minimizer over it. -/
def cleanConfig (config : Json) : Option Json :=
  match entryProps config with
  | none => none
  | some kvs =>
    match lookupKv kvs "packageRules" with
    | some pr =>
        if truthy pr then
          match pr with
          | .arr rules =>
              (rules.mapM cleanRuleEntry).map
                (fun rs => jsSet config "packageRules" (.arr rs))
          | _ => none
        else some config
    | none => some config

/-- One load-then-export pass: the document `cleanConfig` produces for a
freshly loaded document (what clipboard copy / download serializes). -/
def exportLoad (doc : Json) : Option Json :=
  (loadNormalize doc).bind cleanConfig

/-! ### Form synchronizer: view-mode state machine -/

/-- The two view modes of the editor. -/
inductive ViewMode where
  | visual
  | json
deriving Repr, DecidableEq

/-- The synchronizer's state: the working document, the view-mode flag and
the raw-text buffer. -/
structure EditorState where
  editableConfig : Json
  viewMode : ViewMode
  jsonText : String
deriving Repr

/-- `switchToVisualMode`, parameterized by the strict `JSON.parse`
collaborator; the returned flag records whether the syntax-error alert
fired. On parse failure nothing is assigned. -/
def switchToVisualMode (parse : String → Option Json) (s : EditorState) :
    EditorState × Bool :=
  match parse s.jsonText with
  | some c => ({ s with editableConfig := c, viewMode := .visual }, false)
  | none => (s, true)

/-- `switchToJsonMode`, parameterized by the `JSON.stringify` collaborator. -/
def switchToJsonMode (stringify : Json → String) (s : EditorState) : EditorState :=
  { s with jsonText := stringify s.editableConfig, viewMode := .json }

/-! ### Form synchronizer: list helpers (`addToArray` / `removeFromArray`) -/

/-- Split a character list at every `'.'` (JavaScript `key.split('.')`). -/
def splitDot : List Char → List (List Char)
  | [] => [[]]
  | c :: rest =>
      if c = '.' then [] :: splitDot rest
      else
        match splitDot rest with
        | h :: t => (c :: h) :: t
        | [] => [[c]]

/-- Does the string contain a `'.'` (JavaScript `key.includes('.')`)? -/
def hasDot (s : String) : Bool := s.data.any (fun ch => ch == '.')

/-- `xs.splice(start, 1)` as a value: one element is removed at the
clamped start index (a negative start counts from the end). -/
def jsSplice (xs : List Json) (start : Int) : List Json :=
  let s : Nat :=
    if start < 0 then (max ((xs.length : Int) + start) 0).toNat
    else min start.toNat xs.length
  xs.take s ++ xs.drop (s + 1)

/-- `arr[i] = v` where `i` may extend the array (holes serialize as
`null`). -/
def jsArraySet (xs : List Json) (i : Nat) (v : Json) : List Json :=
  if i < xs.length then xs.set i v
  else xs ++ List.replicate (i - xs.length) Json.null ++ [v]

/-- Is `k` a canonical array-index string? -/
def jsIdx (k : String) : Option Nat :=
  match k.toNat? with
  | some n => if toString n = k then some n else none
  | none => none

/-- The child step of `addToArray` on a parent value that is known to be
truthy: ensure `parent[child]` is truthy (else assign `[]`), then push
`''`; `none` models `.push` on a non-array or a strict-mode property
assignment on a primitive. The result is the updated parent value. -/
def addChildPush (parentVal : Json) (child : String) : Option Json :=
  match parentVal with
  | .obj pkvs =>
      let pkvs1 :=
        match lookupKv pkvs child with
        | some v => if truthy v then pkvs else setKey pkvs child (.arr [])
        | none => setKey pkvs child (.arr [])
      match lookupKv pkvs1 child with
      | some (.arr xs) => some (.obj (setKey pkvs1 child (.arr (xs ++ [.str ""]))))
      | _ => none
  | .arr pxs =>
      if child = "length" then none  -- push on a number throws
      else
        match jsIdx child with
        | some i =>
            if h : i < pxs.length then
              match pxs.get ⟨i, h⟩ with
              | .arr xs => some (.arr (jsArraySet pxs i (.arr (xs ++ [.str ""]))))
              | e => if truthy e then none else some (.arr (jsArraySet pxs i (.arr [.str ""])))
            else some (.arr (jsArraySet pxs i (.arr [.str ""])))
        | none => some (.arr pxs)  -- non-index property: invisible to JSON
  | _ => none  -- assigning a property on a primitive throws in strict mode

/-- `addToArray(key)` on the working document. -/
def addToArray (doc : Json) (key : String) : Option Json :=
  if hasDot key then
    match splitDot key.data with
    | pcs :: ccs :: _ =>
        let parent : String := ⟨pcs⟩
        let child : String := ⟨ccs⟩
        if parent = "" ∨ child = "" then some doc
        else
          match doc with
          | .obj kvs =>
              -- if (!editableConfig.value[parent]) editableConfig.value[parent] = {}
              let kvs1 :=
                match lookupKv kvs parent with
                | some v => if truthy v then kvs else setKey kvs parent (.obj [])
                | none => setKey kvs parent (.obj [])
              match lookupKv kvs1 parent with
              | some pv => (addChildPush pv child).map (fun pv2 => .obj (setKey kvs1 parent pv2))
              | none => none
          | _ => none  -- the document ref is always an object in the app
    | _ => some doc
  else
    match doc with
    | .obj kvs =>
        -- if (editableConfig.value[key] === undefined) editableConfig.value[key] = []
        let kvs1 :=
          match lookupKv kvs key with
          | some _ => kvs
          | none => setKey kvs key (.arr [])
        match lookupKv kvs1 key with
        | some (.arr xs) => some (.obj (setKey kvs1 key (.arr (xs ++ [.str ""]))))
        | _ => some (.obj kvs1)
    | _ => none

/-- `removeFromArray(key, index)` on the working document; never throws
except on a `null` document (all mutation is behind `Array.isArray`
guards). -/
def removeFromArray (doc : Json) (key : String) (index : Int) : Option Json :=
  match doc with
  | .null => none
  | _ =>
    if hasDot key then
      match splitDot key.data with
      | pcs :: ccs :: _ =>
          let parent : String := ⟨pcs⟩
          let child : String := ⟨ccs⟩
          if parent = "" ∨ child = "" then some doc
          else
            match jsGetProp doc parent with
            | some pv =>
                if truthy pv then
                  match jsGetProp pv child with
                  | some (.arr xs) =>
                      some (jsSet doc parent (jsSet pv child (.arr (jsSplice xs index))))
                  | _ => some doc
                else some doc
            | none => some doc
      | _ => some doc
    else
      match jsGetProp doc key with
      | some (.arr xs) => some (jsSet doc key (.arr (jsSplice xs index)))
      | _ => some doc

/-! ### Config resolver (`UrlInput.vue`) -/

/-- Is `pat` a prefix of `s`? -/
def isPrefixList : List Char → List Char → Bool
  | [], _ => true
  | _ :: _, [] => false
  | a :: as, b :: bs => a == b && isPrefixList as bs

/-- Does `pat` occur inside `s` (JavaScript `s.includes(pat)`)? -/
def occursList (pat : List Char) : List Char → Bool
  | [] => pat.isEmpty
  | c :: rest => isPrefixList pat (c :: rest) || occursList pat rest

/-- JavaScript `s.includes(pat)`. -/
def containsSub (s pat : String) : Bool := occursList pat.data s.data

/-- First index at which `pat` occurs in `s`, if any. -/
def findSubIdx (pat : List Char) : List Char → Option Nat
  | [] => if pat.isEmpty then some 0 else none
  | c :: rest =>
      if isPrefixList pat (c :: rest) then some 0
      else (findSubIdx pat rest).map (· + 1)

/-- JavaScript `s.replace(pat, rep)` with a plain-string pattern: replace
the first occurrence only. -/
def replaceFirst (s pat rep : String) : String :=
  match findSubIdx pat.data s.data with
  | some i => ⟨s.data.take i ++ rep.data ++ s.data.drop (i + pat.data.length)⟩
  | none => s

/-- Strip a prefix, returning the remainder. -/
def dropPrefixList (pat s : List Char) : Option (List Char) :=
  match pat, s with
  | [], s => some s
  | _ :: _, [] => none
  | a :: as, b :: bs => if a = b then dropPrefixList as bs else none

/-- Try to match `/github\.com\/([^\/]+)\/([^\/]+)/` at the head of `cs`,
returning the two capture groups. -/
def tryGithubAt (cs : List Char) : Option (String × String) := do
  let r1 ← dropPrefixList "github.com/".data cs
  let owner := r1.takeWhile (fun c => c ≠ '/')
  if owner.isEmpty then none
  else
    match r1.drop owner.length with
    | '/' :: r2 =>
        let repo := r2.takeWhile (fun c => c ≠ '/')
        if repo.isEmpty then none else some (⟨owner⟩, ⟨repo⟩)
    | _ => none

/-- Leftmost match of `/github\.com\/([^\/]+)\/([^\/]+)/`
(`repoUrl.match(...)` in `getGitHubRawUrls`). -/
def githubMatchList : List Char → Option (String × String)
  | [] => none
  | c :: rest =>
      match tryGithubAt (c :: rest) with
      | some r => some r
      | none => githubMatchList rest

/-- Leftmost match of the owner/repo regex on a string. -/
def githubMatch (s : String) : Option (String × String) := githubMatchList s.data

/-- Try to match `/github\.com\/[^\/]+\/[^\/]+\/blob\//` at the head. -/
def tryBlobAt (cs : List Char) : Bool :=
  match dropPrefixList "github.com/".data cs with
  | none => false
  | some r1 =>
      let owner := r1.takeWhile (fun c => c ≠ '/')
      if owner.isEmpty then false
      else
        match r1.drop owner.length with
        | '/' :: r2 =>
            let repo := r2.takeWhile (fun c => c ≠ '/')
            if repo.isEmpty then false
            else isPrefixList "/blob/".data (r2.drop repo.length)
        | _ => false

/-- Does `/github\.com\/[^\/]+\/[^\/]+\/blob\//` match anywhere in the
string (`url.match(...)` in `loadConfig`)? -/
def blobMatchList : List Char → Bool
  | [] => false
  | c :: rest => tryBlobAt (c :: rest) || blobMatchList rest

/-- The blob-URL test on a string. -/
def blobMatch (s : String) : Bool := blobMatchList s.data

/-- `repo.replace(/\.git$/, '')`. -/
def stripGitSuffix (repo : String) : String :=
  if repo.data.reverse.take 4 = ".git".data.reverse then ⟨repo.data.take (repo.data.length - 4)⟩
  else repo

/-- `RENOVATE_CONFIG_PATHS`. -/
def RENOVATE_CONFIG_PATHS : List String :=
  ["renovate.json", ".github/renovate.json", ".renovaterc.json", ".renovaterc"]

/-- One raw-content URL `https://raw.githubusercontent.com/owner/repo/branch/path`. -/
def rawUrl (owner repo branch path : String) : String :=
  "https://raw.githubusercontent.com/" ++ owner ++ "/" ++ repo ++ "/" ++ branch ++ "/" ++ path

/-- `getGitHubRawUrls`: match the owner/repo regex, strip a `.git` suffix,
then enumerate `['main', 'master'] × RENOVATE_CONFIG_PATHS` in
branch-major order. -/
def getGitHubRawUrls (repoUrl : String) : List String :=
  match githubMatch repoUrl with
  | none => []
  | some (owner, repo) =>
      let cleanRepo := stripGitSuffix repo
      (["main", "master"].map
        (fun branch => RENOVATE_CONFIG_PATHS.map (fun path => rawUrl owner cleanRepo branch path))).flatten

/-- The combined outcome of one `tryFetch` call: transport success plus
relaxed-JSON (`JSON5`) parse, or a failure message (an HTTP status string,
a network error message or a parse error message). -/
inductive TryFetchResult where
  | success (data : Json)
  | failure (error : String)

/-- `result.success && result.data`: a fetched candidate is accepted only
when its parsed value is truthy. -/
def isHit : TryFetchResult → Bool
  | .success d => truthy d
  | .failure _ => false

/-- `lastError = result.error || 'Unknown error'` (a success result has no
`error` property). -/
def errOf : TryFetchResult → String
  | .success _ => "Unknown error"
  | .failure e => if e = "" then "Unknown error" else e

/-- The candidate loop of `loadConfig`: try each URL in order, stop at the
first hit, threading `lastError`. -/
def fetchLoop (F : String → TryFetchResult) :
    List String → String → Option Json × String
  | [], lastError => (none, lastError)
  | u :: rest, lastError =>
      match F u with
      | .success d =>
          if truthy d then (some d, lastError)
          else fetchLoop F rest "Unknown error"
      | .failure e => fetchLoop F rest (if e = "" then "Unknown error" else e)

/-- The URLs actually fetched by the candidate loop, in order. -/
def fetchAttempts (F : String → TryFetchResult) : List String → List String
  | [] => []
  | u :: rest => u :: (if isHit (F u) then [] else fetchAttempts F rest)

/-- Characters removed by `String.prototype.trim` (ASCII fragment; the
claims only use it to exclude blank input). -/
def isWs (c : Char) : Bool := c == ' ' || c == '\t' || c == '\n' || c == '\r'

/-- JavaScript `url.trim()`. -/
def jsTrim (s : String) : String :=
  ⟨((s.data.dropWhile isWs).reverse.dropWhile isWs).reverse⟩

/-- The candidate-classification of `loadConfig` (lines 71–93). -/
def candidateUrls (url : String) : List String :=
  if containsSub url "github.com" then
    if containsSub url "raw.githubusercontent.com" then [url]
    else if blobMatch url then
      [replaceFirst (replaceFirst url "github.com" "raw.githubusercontent.com") "/blob/" "/"]
    else getGitHubRawUrls url
  else [url]

/-- The outcome `loadConfig` reports: either `config-loaded` with the
document, or the `error` message it emits. -/
inductive LoadOutcome where
  | loaded (config : Json)
  | failed (msg : String)
deriving Repr

/-- `loadConfig`, parameterized by the fetch-and-parse oracle `F`. -/
def loadConfig (F : String → TryFetchResult) (url : String) : LoadOutcome :=
  if jsTrim url = "" then .failed "Please enter a URL"
  else
    let urls := candidateUrls url
    match fetchLoop F urls "" with
    | (some c, _) => .loaded c
    | (none, lastError) =>
        .failed ("Error loading config: " ++
          (if 1 < urls.length then
            "Could not find renovate config in repository. Tried: " ++
              String.intercalate ", " RENOVATE_CONFIG_PATHS
          else "Failed to load config: " ++ lastError))

/-! ### The editor's operations as a step relation on its state

The handlers below only ever assign `editableConfig.value`,
`viewMode.value` or `jsonText.value`; none writes to the `props.config`
object handed in by the parent (which the `watch` handler deep-copies).
The application state pairs that source object with the editor state so
that this frame property is expressible. -/

/-- `addPackageRule`: ensure `packageRules` is an array, then push a rule
with all common fields initialized (note: no `automerge` key). -/
def addPackageRule (doc : Json) : Option Json :=
  match doc with
  | .obj kvs =>
      let kvs1 :=
        match lookupKv kvs "packageRules" with
        | some v => if truthy v then kvs else setKey kvs "packageRules" (.arr [])
        | none => setKey kvs "packageRules" (.arr [])
      match lookupKv kvs1 "packageRules" with
      | some (.arr rules) =>
          some (.obj (setKey kvs1 "packageRules" (.arr (rules ++
            [.obj [("groupName", .str ""), ("matchManagers", .arr []),
                   ("matchDatasources", .arr []), ("matchFileNames", .arr []),
                   ("matchUpdateTypes", .arr []), ("matchDepTypes", .arr []),
                   ("matchCurrentVersion", .str ""),
                   ("automergeType", .str "branch")]]))))
      | _ => none
  | _ => none

/-- `removePackageRule(index)`: `packageRules?.splice(index, 1)`. -/
def removePackageRule (doc : Json) (index : Int) : Option Json :=
  match doc with
  | .obj kvs =>
      match lookupKv kvs "packageRules" with
      | none => some doc
      | some .null => some doc
      | some (.arr rules) =>
          some (.obj (setKey kvs "packageRules" (.arr (jsSplice rules index))))
      | some _ => none
  | _ => none

/-- `addManagerConfiguration` for a chosen manager name. -/
def addManagerConfiguration (doc : Json) (name : String) : Json :=
  match doc with
  | .obj kvs =>
      if name ≠ "" ∧ ¬(truthy (jsOr (lookupKv kvs name) .null)) = true then
        .obj (setKey kvs name (.obj [("managerFilePatterns", .arr [])]))
      else doc
  | _ => doc

/-- The user-triggered operations of the editor. -/
inductive EditOp where
  | addList (key : String)
  | removeList (key : String) (index : Int)
  | addRule
  | removeRule (index : Int)
  | addManager (name : String)
  | assignField (key : String) (v : Json)
  | setText (t : String)
  | toJsonMode
  | toVisualMode
  | copyClipboard
  | download

/-- Apply one operation to the editor state, with the strict JSON
parse/stringify collaborators; an operation whose model throws leaves the
state as it was (the working copy is observed only through later
serializations). `copyClipboard` and `download` read the state and
produce an artifact but assign nothing. -/
def applyEdit (parse : String → Option Json) (stringify : Json → String) :
    EditOp → EditorState → EditorState
  | .addList key, s =>
      { s with editableConfig := (addToArray s.editableConfig key).getD s.editableConfig }
  | .removeList key index, s =>
      { s with editableConfig := (removeFromArray s.editableConfig key index).getD s.editableConfig }
  | .addRule, s =>
      { s with editableConfig := (addPackageRule s.editableConfig).getD s.editableConfig }
  | .removeRule index, s =>
      { s with editableConfig := (removePackageRule s.editableConfig index).getD s.editableConfig }
  | .addManager name, s =>
      { s with editableConfig := addManagerConfiguration s.editableConfig name }
  | .assignField key v, s =>
      { s with editableConfig := jsSet s.editableConfig key v }
  | .setText t, s => { s with jsonText := t }
  | .toJsonMode, s => switchToJsonMode stringify s
  | .toVisualMode, s => (switchToVisualMode parse s).1
  | .copyClipboard, s => s
  | .download, s => s

/-- The application state: the loaded source document (owned by the
parent view) next to the editor's own state. -/
structure AppState where
  source : Json
  editor : EditorState

/-- Lift an editor operation to the application state: every handler
writes only the editor's refs. -/
def appApply (parse : String → Option Json) (stringify : Json → String)
    (op : EditOp) (a : AppState) : AppState :=
  { a with editor := applyEdit parse stringify op a.editor }

/-! ### Well-formed documents and canonical exported rules

`wfRuleB`/`wfDocB` state that a document conforms to the data model of the
spec (§3): `packageRules`, when present, is a sequence of rule objects
whose recognized fields, when present, carry their declared types —
strings for `groupName`/`matchCurrentVersion`, string sequences for the
five match conditions, a boolean for `automerge` and `branch`/`pr` for
`automergeType`; unrecognized fields are arbitrary.  Association lists
representing objects have no duplicate keys. -/

/-- Field value as a string (absent or non-string reads as `""`). -/
def getStr (kvs : List (String × Json)) (k : String) : String :=
  match lookupKv kvs k with
  | some (.str s) => s
  | _ => ""

/-- Field value as an array (absent or non-array reads as `[]`). -/
def getArr (kvs : List (String × Json)) (k : String) : List Json :=
  match lookupKv kvs k with
  | some (.arr xs) => xs
  | _ => []

/-- The automerge-mode a normalized rule carries: the rule's own, else
`"branch"`. -/
def getAmt (kvs : List (String × Json)) : String :=
  match lookupKv kvs "automergeType" with
  | some (.str s) => s
  | _ => "branch"

/-- The fields of a rule outside the fixed rule-field set, in order. -/
def nonFixed (kvs : List (String × Json)) : List (String × Json) :=
  kvs.filter (fun kv => !(fixedRuleNames.contains kv.1))

/-- The export of a loaded well-formed rule, written out explicitly. -/
def canonicalRule (kvs : List (String × Json)) : List (String × Json) :=
  optField (some (.str (getStr kvs "groupName"))) "groupName"
  ++ ((if 0 < (cleanArray (getArr kvs "matchManagers")).length then
        [("matchManagers", Json.arr (cleanArray (getArr kvs "matchManagers")))] else [])
  ++ ((if 0 < (cleanArray (getArr kvs "matchDatasources")).length then
        [("matchDatasources", Json.arr (cleanArray (getArr kvs "matchDatasources")))] else [])
  ++ ((if 0 < (cleanArray (getArr kvs "matchFileNames")).length then
        [("matchFileNames", Json.arr (cleanArray (getArr kvs "matchFileNames")))] else [])
  ++ ((if 0 < (cleanArray (getArr kvs "matchUpdateTypes")).length then
        [("matchUpdateTypes", Json.arr (cleanArray (getArr kvs "matchUpdateTypes")))] else [])
  ++ ((if 0 < (cleanArray (getArr kvs "matchDepTypes")).length then
        [("matchDepTypes", Json.arr (cleanArray (getArr kvs "matchDepTypes")))] else [])
  ++ (optField (some (.str (getStr kvs "matchCurrentVersion"))) "matchCurrentVersion"
  ++ ((match lookupKv kvs "automerge" with
      | some v => [("automerge", v)]
      | none => [])
  ++ ((match lookupKv kvs "automerge" with
      | some (.bool true) => optField (some (.str (getAmt kvs))) "automergeType"
      | _ => [])
  ++ nonFixed kvs))))))))

/-- Is the (possibly absent) `automerge` value strictly `true`? -/
def amIsTrueO : Option Json → Bool
  | some (.bool true) => true
  | _ => false

/-- Does a possibly-absent field have the stated simple type? -/
def optTyStr : Option Json → Bool
  | none => true
  | some (.str _) => true
  | _ => false

/-- Absent, or a sequence of strings. -/
def optTyStrArr : Option Json → Bool
  | none => true
  | some (.arr xs) => xs.all Json.isStr
  | _ => false

/-- Absent, or a boolean. -/
def optTyBool : Option Json → Bool
  | none => true
  | some (.bool _) => true
  | _ => false

/-- Absent, or one of the two automerge modes. -/
def optTyAmt : Option Json → Bool
  | none => true
  | some (.str s) => s == "branch" || s == "pr"
  | _ => false

/-- A well-formed (data-model-conforming) package rule, as a key list. -/
def wfRuleB (kvs : List (String × Json)) : Bool :=
  nodupKeys kvs
  && optTyStr (lookupKv kvs "groupName")
  && optTyStrArr (lookupKv kvs "matchManagers")
  && optTyStrArr (lookupKv kvs "matchDatasources")
  && optTyStrArr (lookupKv kvs "matchFileNames")
  && optTyStrArr (lookupKv kvs "matchUpdateTypes")
  && optTyStrArr (lookupKv kvs "matchDepTypes")
  && optTyStr (lookupKv kvs "matchCurrentVersion")
  && optTyBool (lookupKv kvs "automerge")
  && optTyAmt (lookupKv kvs "automergeType")

/-- A well-formed package-rule entry: a rule object. -/
def wfRuleEntryB : Json → Bool
  | .obj kvs => wfRuleB kvs
  | _ => false

/-- A well-formed Configuration Document. -/
def wfDocB : Json → Bool
  | .obj kvs =>
      nodupKeys kvs &&
      (match lookupKv kvs "packageRules" with
       | none => true
       | some (.arr rules) => rules.all wfRuleEntryB
       | some _ => false)
  | _ => false

/-- An object entry with no duplicate keys (what any JavaScript object
satisfies); the well-formedness C6 needs. -/
def isObjNodup : Json → Bool
  | .obj kvs => nodupKeys kvs
  | _ => false

/-- The eight rule fields the load normalizer defaults, with their
type's empty default. -/
def ruleDefaults8 : List (String × Json) :=
  [("groupName", .str ""), ("matchManagers", .arr []),
   ("matchDatasources", .arr []), ("matchFileNames", .arr []),
   ("matchUpdateTypes", .arr []), ("matchDepTypes", .arr []),
   ("matchCurrentVersion", .str ""), ("automergeType", .str "branch")]

/-- The names of the eight defaulted rule fields. -/
def fixedNames8 : List String := ruleDefaults8.map Prod.fst

/-- The normalizer applied to an object entry (total helper for stating
results; `loadNormalize` only ever reaches the object case on the inputs
the claims quantify over). -/
def normEntryFn : Json → Json
  | .obj kvs => .obj (normalizeRule kvs)
  | e => e

/-- The canonical exported rule for an object entry. -/
def canonEntryFn : Json → Json
  | .obj kvs => .obj (canonicalRule kvs)
  | e => e

/-- The length of the array at a top-level key (0 when not an array) — an
observation used to tell documents apart. -/
def arrLenAt (doc : Json) (k : String) : Nat :=
  match jsGetProp doc k with
  | some (.arr xs) => xs.length
  | _ => 0

/-! ### Association-list lemmas -/

@[simp]
theorem lookupKv_nil (k : String) : lookupKv [] k = none := rfl

@[simp]
theorem lookupKv_cons (k' : String) (v' : Json) (t : List (String × Json)) (k : String) :
    lookupKv ((k', v') :: t) k = if k = k' then some v' else lookupKv t k := rfl

@[simp]
theorem keysOf_nil : keysOf [] = [] := rfl

@[simp]
theorem keysOf_cons (k : String) (v : Json) (t : List (String × Json)) :
    keysOf ((k, v) :: t) = k :: keysOf t := rfl

theorem keysOf_append (a b : List (String × Json)) :
    keysOf (a ++ b) = keysOf a ++ keysOf b := List.map_append _ _ _

theorem lookupKv_append_left {a : List (String × Json)} {k : String} {v : Json}
    (h : lookupKv a k = some v) (b : List (String × Json)) :
    lookupKv (a ++ b) k = some v := by
  induction a with
  | nil => simp at h
  | cons hd tl ih =>
      obtain ⟨k', v'⟩ := hd
      by_cases hk : k = k' <;> simp [hk] at h ⊢
      · exact h
      · exact ih h

theorem lookupKv_append_right {a : List (String × Json)} {k : String}
    (h : lookupKv a k = none) (b : List (String × Json)) :
    lookupKv (a ++ b) k = lookupKv b k := by
  induction a with
  | nil => simp
  | cons hd tl ih =>
      obtain ⟨k', v'⟩ := hd
      by_cases hk : k = k' <;> simp [hk] at h ⊢
      exact ih h

theorem lookupKv_eq_none_iff {a : List (String × Json)} {k : String} :
    lookupKv a k = none ↔ k ∉ keysOf a := by
  induction a with
  | nil => simp
  | cons hd tl ih =>
      obtain ⟨k', v'⟩ := hd
      by_cases hk : k = k' <;> simp [hk, ih]

theorem nodupKeys_tail {k : String} {v : Json} {t : List (String × Json)}
    (h : nodupKeys ((k, v) :: t) = true) : nodupKeys t = true := by
  simp [nodupKeys] at h
  exact h.2

theorem not_mem_keys_of_nodup_head {k : String} {v : Json} {t : List (String × Json)}
    (h : nodupKeys ((k, v) :: t) = true) : k ∉ keysOf t := by
  intro hmem
  obtain ⟨⟨k2, v2⟩, hm, hk⟩ := List.mem_map.mp hmem
  simp [nodupKeys] at h
  exact absurd (by simpa using hk) (h.1 k2 v2 hm)

theorem lookupKv_of_mem_nodup {a : List (String × Json)} {k : String} {v : Json}
    (hn : nodupKeys a = true) (hm : (k, v) ∈ a) : lookupKv a k = some v := by
  induction a with
  | nil => simp at hm
  | cons hd tl ih =>
      obtain ⟨k', v'⟩ := hd
      rcases List.mem_cons.mp hm with heq | hmem
      · rw [Prod.mk.injEq] at heq
        simp [heq.1, heq.2]
      · have hk : k ≠ k' := by
          intro hkk
          subst hkk
          exact not_mem_keys_of_nodup_head hn (List.mem_map.mpr ⟨(k, v), hmem, rfl⟩)
        simp [hk]
        exact ih (nodupKeys_tail hn) hmem

theorem setKey_of_lookup_some_eq {a : List (String × Json)} {k : String} {v : Json}
    (h : lookupKv a k = some v) : setKey a k v = a := by
  induction a with
  | nil => simp at h
  | cons hd tl ih =>
      obtain ⟨k', v'⟩ := hd
      by_cases hk : k = k' <;> simp [hk, setKey] at h ⊢
      · exact h.symm
      · exact ih h

theorem setKey_of_lookup_none {a : List (String × Json)} {k : String} (v : Json)
    (h : lookupKv a k = none) : setKey a k v = a ++ [(k, v)] := by
  induction a with
  | nil => simp [setKey]
  | cons hd tl ih =>
      obtain ⟨k', v'⟩ := hd
      by_cases hk : k = k' <;> simp [hk, setKey] at h ⊢
      exact ih h

theorem lookupKv_setKey_self (a : List (String × Json)) (k : String) (v : Json) :
    lookupKv (setKey a k v) k = some v := by
  induction a with
  | nil => simp [setKey]
  | cons hd tl ih =>
      obtain ⟨k', v'⟩ := hd
      by_cases hk : k = k' <;> simp [hk, setKey]
      exact ih

theorem lookupKv_setKey_ne (a : List (String × Json)) {k k' : String} (v : Json)
    (h : k' ≠ k) : lookupKv (setKey a k v) k' = lookupKv a k' := by
  induction a with
  | nil => simp [setKey, h]
  | cons hd tl ih =>
      obtain ⟨k0, v0⟩ := hd
      by_cases hk : k = k0
      · subst hk
        simp [setKey, h]
      · by_cases hk' : k' = k0 <;> simp [setKey, hk, hk', ih]

theorem keysOf_setKey_mem {a : List (String × Json)} {k : String} (v : Json)
    (h : k ∈ keysOf a) : keysOf (setKey a k v) = keysOf a := by
  induction a with
  | nil => simp at h
  | cons hd tl ih =>
      obtain ⟨k0, v0⟩ := hd
      by_cases hk : k = k0
      · simp [setKey, hk]
      · simp [hk] at h
        simp [setKey, hk, ih h]

theorem setKey_setKey (a : List (String × Json)) (k : String) (v w : Json) :
    setKey (setKey a k v) k w = setKey a k w := by
  induction a with
  | nil => simp [setKey]
  | cons hd tl ih =>
      obtain ⟨k0, v0⟩ := hd
      by_cases hk : k = k0 <;> simp [setKey, hk, ih]

theorem any_fst_map (tl : List (String × Json)) (k0 : String) :
    (List.map Prod.fst tl).any (fun x => x == k0) = tl.any (fun kv => kv.1 == k0) := by
  induction tl with
  | nil => rfl
  | cons h t ih => simp [ih]

theorem nodupKeysL_eq (a : List (String × Json)) :
    nodupKeys a = nodupKeysL (keysOf a) := by
  induction a with
  | nil => rfl
  | cons hd tl ih =>
      obtain ⟨k0, v0⟩ := hd
      simp [nodupKeys, nodupKeysL, keysOf, ih, any_fst_map]

theorem nodupKeysL_append_singleton {l : List String} {k : String}
    (h : nodupKeysL l = true) (hk : k ∉ l) : nodupKeysL (l ++ [k]) = true := by
  induction l with
  | nil => simp [nodupKeysL]
  | cons x rest ih =>
      simp [nodupKeysL] at h ⊢
      simp at hk
      exact ⟨⟨h.1, hk.1⟩, ih h.2 hk.2⟩

theorem nodupKeys_setKey {a : List (String × Json)} (k : String) (v : Json)
    (h : nodupKeys a = true) : nodupKeys (setKey a k v) = true := by
  by_cases hm : k ∈ keysOf a
  · rw [nodupKeysL_eq, keysOf_setKey_mem v hm, ← nodupKeysL_eq]
    exact h
  · rw [setKey_of_lookup_none v (lookupKv_eq_none_iff.mpr hm), nodupKeysL_eq, keysOf_append]
    exact nodupKeysL_append_singleton (by rw [← nodupKeysL_eq]; exact h) hm

/-! ### Segment-lookup lemmas for conditionally emitted properties -/

theorem keysOf_optField_sub {o : Option Json} {k x : String}
    (h : x ∈ keysOf (optField o k)) : x = k := by
  match o with
  | none => simp [optField] at h
  | some v =>
      by_cases ht : truthy v <;> simp [optField, ht] at h
      exact h

theorem lookupKv_optField_ne {o : Option Json} {k k' : String} (h : k' ≠ k)
    (rest : List (String × Json)) :
    lookupKv (optField o k ++ rest) k' = lookupKv rest k' := by
  match o with
  | none => simp [optField]
  | some v => by_cases ht : truthy v <;> simp [optField, ht, h]

theorem lookupKv_optField_self {v : Json} {k : String} (rest : List (String × Json)) :
    lookupKv (optField (some v) k ++ rest) k =
      if truthy v then some v else lookupKv rest k := by
  by_cases ht : truthy v <;> simp [optField, ht]

theorem lookupKv_condSeg_ne {c : Prop} [Decidable c] {k k' : String} {v : Json}
    (h : k' ≠ k) (rest : List (String × Json)) :
    lookupKv ((if c then [(k, v)] else []) ++ rest) k' = lookupKv rest k' := by
  by_cases hc : c <;> simp [hc, h]

theorem lookupKv_condSeg_self {c : Prop} [Decidable c] {k : String} {v : Json}
    (rest : List (String × Json)) :
    lookupKv ((if c then [(k, v)] else []) ++ rest) k =
      if c then some v else lookupKv rest k := by
  by_cases hc : c <;> simp [hc]

theorem lookupKv_amSeg_ne {o : Option Json} {k k' : String} (h : k' ≠ k)
    (rest : List (String × Json)) :
    lookupKv ((match o with | some v => [(k, v)] | none => []) ++ rest) k' =
      lookupKv rest k' := by
  match o with
  | none => simp
  | some v => simp [h]

theorem lookupKv_amSeg_self {o : Option Json} {k : String} (rest : List (String × Json))
    (hrest : lookupKv rest k = none) :
    lookupKv ((match o with | some v => [(k, v)] | none => []) ++ rest) k = o := by
  match o with
  | none => simpa
  | some v => simp

/-! ### Spread (`...rule`) lemmas -/

@[simp]
theorem spreadFold_nil (acc : List (String × Json)) : spreadFold acc [] = acc := rfl

@[simp]
theorem spreadFold_cons (acc : List (String × Json)) (k : String) (v : Json)
    (t : List (String × Json)) :
    spreadFold acc ((k, v) :: t) = spreadFold (setKey acc k v) t := rfl

theorem lookup_spreadFold_not_mem {kvs : List (String × Json)} {k : String}
    (h : lookupKv kvs k = none) (acc : List (String × Json)) :
    lookupKv (spreadFold acc kvs) k = lookupKv acc k := by
  induction kvs generalizing acc with
  | nil => simp
  | cons hd tl ih =>
      obtain ⟨k0, v0⟩ := hd
      by_cases hk : k = k0 <;> simp [hk] at h ⊢
      rw [ih h, lookupKv_setKey_ne _ _ hk]

theorem lookup_spreadFold_mem {kvs : List (String × Json)} {k : String} {v : Json}
    (hn : nodupKeys kvs = true) (hm : (k, v) ∈ kvs) (acc : List (String × Json)) :
    lookupKv (spreadFold acc kvs) k = some v := by
  induction kvs generalizing acc with
  | nil => simp at hm
  | cons hd tl ih =>
      obtain ⟨k0, v0⟩ := hd
      rcases List.mem_cons.mp hm with heq | hmem
      · rw [Prod.mk.injEq] at heq
        obtain ⟨h1, h2⟩ := heq
        subst h1; subst h2
        rw [spreadFold_cons,
          lookup_spreadFold_not_mem (lookupKv_eq_none_iff.mpr (not_mem_keys_of_nodup_head hn)),
          lookupKv_setKey_self]
      · exact ih (nodupKeys_tail hn) hmem _

theorem spread_noop_append {kvs : List (String × Json)}
    (hn : nodupKeys kvs = true) :
    ∀ acc : List (String × Json),
    (∀ k v, (k, v) ∈ kvs → lookupKv acc k = none ∨ lookupKv acc k = some v) →
    spreadFold acc kvs = acc ++ kvs.filter (fun kv => (lookupKv acc kv.1).isNone) := by
  induction kvs with
  | nil => simp
  | cons hd tl ih =>
      obtain ⟨k0, v0⟩ := hd
      intro acc hAgree
      have hfilter_tl : ∀ f g : String × Json → Bool,
          (∀ kv ∈ tl, f kv = g kv) → tl.filter f = tl.filter g :=
        fun f g h => List.filter_congr h
      rcases hAgree k0 v0 (List.mem_cons_self _ _) with hnone | hsome
      · have hagree2 : ∀ k v, (k, v) ∈ tl →
            lookupKv (acc ++ [(k0, v0)]) k = none ∨ lookupKv (acc ++ [(k0, v0)]) k = some v := by
          intro k v hm
          have hk : k ≠ k0 := by
            intro hkk
            exact absurd (List.mem_map.mpr ⟨(k, v), hm, hkk⟩) (not_mem_keys_of_nodup_head hn)
          rcases hAgree k v (List.mem_cons_of_mem _ hm) with h1 | h1
          · left
            rw [lookupKv_append_right h1]
            simp [hk]
          · right
            exact lookupKv_append_left h1 _
        rw [spreadFold_cons, setKey_of_lookup_none _ hnone, ih (nodupKeys_tail hn) _ hagree2]
        have hpp : tl.filter (fun kv => (lookupKv (acc ++ [(k0, v0)]) kv.1).isNone) =
            tl.filter (fun kv => (lookupKv acc kv.1).isNone) := by
          apply hfilter_tl
          intro kv hm
          have hk : kv.1 ≠ k0 := by
            intro hkk
            exact absurd (List.mem_map.mpr ⟨kv, hm, hkk⟩) (not_mem_keys_of_nodup_head hn)
          cases hl : lookupKv acc kv.1 with
          | none => rw [lookupKv_append_right hl]; simp [hk]
          | some w => rw [lookupKv_append_left hl]
        rw [hpp, List.filter_cons]
        simp only [hnone, Option.isNone_none, if_true]
        rw [List.append_assoc, List.singleton_append]
      · rw [spreadFold_cons, setKey_of_lookup_some_eq hsome,
          ih (nodupKeys_tail hn) _ (fun k v hm => hAgree k v (List.mem_cons_of_mem _ hm))]
        rw [List.filter_cons]
        simp [hsome]

/-! ### Lookups on the normalizer's literal object -/

theorem base_groupName (kvs : List (String × Json)) :
    lookupKv (normalizeBase kvs) "groupName" =
      some (jsOr (lookupKv kvs "groupName") (.str "")) := by
  cases h : lookupKv kvs "automerge" <;> simp [normalizeBase, h]

theorem base_matchManagers (kvs : List (String × Json)) :
    lookupKv (normalizeBase kvs) "matchManagers" =
      some (jsOr (lookupKv kvs "matchManagers") (.arr [])) := by
  cases h : lookupKv kvs "automerge" <;> simp [normalizeBase, h]

theorem base_matchDatasources (kvs : List (String × Json)) :
    lookupKv (normalizeBase kvs) "matchDatasources" =
      some (jsOr (lookupKv kvs "matchDatasources") (.arr [])) := by
  cases h : lookupKv kvs "automerge" <;> simp [normalizeBase, h]

theorem base_matchFileNames (kvs : List (String × Json)) :
    lookupKv (normalizeBase kvs) "matchFileNames" =
      some (jsOr (lookupKv kvs "matchFileNames") (.arr [])) := by
  cases h : lookupKv kvs "automerge" <;> simp [normalizeBase, h]

theorem base_matchUpdateTypes (kvs : List (String × Json)) :
    lookupKv (normalizeBase kvs) "matchUpdateTypes" =
      some (jsOr (lookupKv kvs "matchUpdateTypes") (.arr [])) := by
  cases h : lookupKv kvs "automerge" <;> simp [normalizeBase, h]

theorem base_matchDepTypes (kvs : List (String × Json)) :
    lookupKv (normalizeBase kvs) "matchDepTypes" =
      some (jsOr (lookupKv kvs "matchDepTypes") (.arr [])) := by
  cases h : lookupKv kvs "automerge" <;> simp [normalizeBase, h]

theorem base_matchCurrentVersion (kvs : List (String × Json)) :
    lookupKv (normalizeBase kvs) "matchCurrentVersion" =
      some (jsOr (lookupKv kvs "matchCurrentVersion") (.str "")) := by
  cases h : lookupKv kvs "automerge" <;> simp [normalizeBase, h]

theorem base_automerge (kvs : List (String × Json)) :
    lookupKv (normalizeBase kvs) "automerge" = lookupKv kvs "automerge" := by
  cases h : lookupKv kvs "automerge" <;> simp [normalizeBase, h]

theorem base_automergeType (kvs : List (String × Json)) :
    lookupKv (normalizeBase kvs) "automergeType" =
      some (jsOr (lookupKv kvs "automergeType") (.str "branch")) := by
  cases h : lookupKv kvs "automerge" <;> simp [normalizeBase, h]

theorem base_other (kvs : List (String × Json)) {k : String}
    (h : fixedRuleNames.contains k = false) :
    lookupKv (normalizeBase kvs) k = none := by
  simp [fixedRuleNames, List.contains] at h
  obtain ⟨h1, h2, h3, h4, h5, h6, h7, h8, h9⟩ := h
  cases ha : lookupKv kvs "automerge" <;>
    simp [normalizeBase, ha, h1, h2, h3, h4, h5, h6, h7, h8, h9]

/-! ### Values of `a || d` at well-typed fields -/

theorem jsOr_str_self (s : String) : jsOr (some (.str s)) (.str "") = .str s := by
  by_cases h : s = "" <;> simp [jsOr, truthy, h]

theorem jsOr_arr_self (xs : List Json) (d : Json) : jsOr (some (.arr xs)) d = .arr xs := by
  simp [jsOr, truthy]

theorem jsOr_amt_self {v : Json} (h : optTyAmt (some v) = true) :
    jsOr (some v) (.str "branch") = v := by
  match v with
  | .str s =>
      simp [optTyAmt] at h
      rcases h with h | h <;> simp [jsOr, truthy, h]
  | .null | .bool _ | .num _ | .arr _ | .obj _ => simp [optTyAmt] at h

theorem getStr_of_tyStr {kvs : List (String × Json)} {k : String}
    (h : optTyStr (lookupKv kvs k) = true) :
    jsOr (lookupKv kvs k) (.str "") = .str (getStr kvs k) := by
  cases hl : lookupKv kvs k with
  | none => simp [jsOr, getStr, hl]
  | some v =>
      rw [hl] at h
      match v with
      | .str s => rw [jsOr_str_self]; simp [getStr, hl]
      | .null | .bool _ | .num _ | .arr _ | .obj _ => simp [optTyStr] at h

theorem getArr_of_tyArr {kvs : List (String × Json)} {k : String}
    (h : optTyStrArr (lookupKv kvs k) = true) :
    jsOr (lookupKv kvs k) (.arr []) = .arr (getArr kvs k) := by
  cases hl : lookupKv kvs k with
  | none => simp [jsOr, getArr, hl]
  | some v =>
      rw [hl] at h
      match v with
      | .arr xs => rw [jsOr_arr_self]; simp [getArr, hl]
      | .null | .bool _ | .num _ | .str _ | .obj _ => simp [optTyStrArr] at h

theorem getAmt_of_tyAmt {kvs : List (String × Json)}
    (h : optTyAmt (lookupKv kvs "automergeType") = true) :
    jsOr (lookupKv kvs "automergeType") (.str "branch") = .str (getAmt kvs) := by
  cases hl : lookupKv kvs "automergeType" with
  | none => simp [jsOr, getAmt, hl]
  | some v =>
      rw [hl] at h
      rw [jsOr_amt_self h]
      match v with
      | .str s => simp [getAmt, hl]
      | .null | .bool _ | .num _ | .arr _ | .obj _ => simp [optTyAmt] at h

/-! ### Structure of a normalized well-formed rule -/

theorem wfRuleB_parts {kvs : List (String × Json)} (h : wfRuleB kvs = true) :
    nodupKeys kvs = true
    ∧ optTyStr (lookupKv kvs "groupName") = true
    ∧ optTyStrArr (lookupKv kvs "matchManagers") = true
    ∧ optTyStrArr (lookupKv kvs "matchDatasources") = true
    ∧ optTyStrArr (lookupKv kvs "matchFileNames") = true
    ∧ optTyStrArr (lookupKv kvs "matchUpdateTypes") = true
    ∧ optTyStrArr (lookupKv kvs "matchDepTypes") = true
    ∧ optTyStr (lookupKv kvs "matchCurrentVersion") = true
    ∧ optTyBool (lookupKv kvs "automerge") = true
    ∧ optTyAmt (lookupKv kvs "automergeType") = true := by
  simp [wfRuleB] at h
  tauto

theorem mem_fixed_cases {k : String} (h : fixedRuleNames.contains k = true) :
    k = "groupName" ∨ k = "matchManagers" ∨ k = "matchDatasources"
    ∨ k = "matchFileNames" ∨ k = "matchUpdateTypes" ∨ k = "matchDepTypes"
    ∨ k = "matchCurrentVersion" ∨ k = "automerge" ∨ k = "automergeType" := by
  simp [fixedRuleNames, List.contains] at h
  tauto

theorem normalizeRule_eq_of_wf {kvs : List (String × Json)} (h : wfRuleB kvs = true) :
    normalizeRule kvs = normalizeBase kvs ++ nonFixed kvs := by
  obtain ⟨hn, t1, t2, t3, t4, t5, t6, t7, t8, t9⟩ := wfRuleB_parts h
  rw [normalizeRule, spread_noop_append hn _ ?agree]
  · congr 1
    apply List.filter_congr
    intro kv hm
    cases hc : fixedRuleNames.contains kv.1 with
    | false => simp [nonFixed, hc, base_other kvs hc]
    | true =>
        simp only [nonFixed, hc, Bool.not_true]
        have hsome : ∃ w, lookupKv (normalizeBase kvs) kv.1 = some w := by
          have hkv : lookupKv kvs kv.1 = some kv.2 :=
            lookupKv_of_mem_nodup hn (by simpa using hm)
          rcases mem_fixed_cases hc with hk | hk | hk | hk | hk | hk | hk | hk | hk <;>
            rw [hk] <;>
            first
              | exact ⟨_, base_groupName kvs⟩
              | exact ⟨_, base_matchManagers kvs⟩
              | exact ⟨_, base_matchDatasources kvs⟩
              | exact ⟨_, base_matchFileNames kvs⟩
              | exact ⟨_, base_matchUpdateTypes kvs⟩
              | exact ⟨_, base_matchDepTypes kvs⟩
              | exact ⟨_, base_matchCurrentVersion kvs⟩
              | exact ⟨_, (base_automerge kvs).trans (hk ▸ hkv)⟩
              | exact ⟨_, base_automergeType kvs⟩
        obtain ⟨w, hw⟩ := hsome
        simp [hw]
  case agree =>
    intro k v hm
    have hkv : lookupKv kvs k = some v := lookupKv_of_mem_nodup hn hm
    cases hc : fixedRuleNames.contains k with
    | false => exact Or.inl (base_other kvs hc)
    | true =>
        right
        rcases mem_fixed_cases hc with hk | hk | hk | hk | hk | hk | hk | hk | hk <;> subst hk
        · rw [base_groupName, hkv]
          rw [hkv] at t1
          match v, t1 with
          | .str s, _ => rw [jsOr_str_self]
        · rw [base_matchManagers, hkv]
          rw [hkv] at t2
          match v, t2 with
          | .arr xs, _ => rw [jsOr_arr_self]
        · rw [base_matchDatasources, hkv]
          rw [hkv] at t3
          match v, t3 with
          | .arr xs, _ => rw [jsOr_arr_self]
        · rw [base_matchFileNames, hkv]
          rw [hkv] at t4
          match v, t4 with
          | .arr xs, _ => rw [jsOr_arr_self]
        · rw [base_matchUpdateTypes, hkv]
          rw [hkv] at t5
          match v, t5 with
          | .arr xs, _ => rw [jsOr_arr_self]
        · rw [base_matchDepTypes, hkv]
          rw [hkv] at t6
          match v, t6 with
          | .arr xs, _ => rw [jsOr_arr_self]
        · rw [base_matchCurrentVersion, hkv]
          rw [hkv] at t7
          match v, t7 with
          | .str s, _ => rw [jsOr_str_self]
        · rw [base_automerge, hkv]
        · rw [base_automergeType, hkv]
          rw [hkv] at t9
          rw [jsOr_amt_self t9]

/-! ### Export of a normalized well-formed rule -/

theorem lookup_nonFixed_fixed {kvs : List (String × Json)} {k : String}
    (h : fixedRuleNames.contains k = true) : lookupKv (nonFixed kvs) k = none := by
  rw [lookupKv_eq_none_iff]
  intro hmem
  obtain ⟨kv, hm, hk⟩ := List.mem_map.mp hmem
  have h2 := (List.mem_filter.mp hm).2
  rw [hk, h] at h2
  simp at h2

theorem filter_nonFixed_self (kvs : List (String × Json)) :
    (nonFixed kvs).filter (fun kv => !(fixedRuleNames.contains kv.1)) = nonFixed kvs :=
  List.filter_eq_self.mpr (fun _kv hm => (List.mem_filter.mp hm).2)

theorem filter_normalizeBase_nil (kvs : List (String × Json)) :
    (normalizeBase kvs).filter (fun kv => !(fixedRuleNames.contains kv.1)) = [] := by
  cases hA : lookupKv kvs "automerge" <;> simp [normalizeBase, hA, fixedRuleNames]

theorem cleanRule_normalizeRule_of_wf {kvs : List (String × Json)}
    (h : wfRuleB kvs = true) :
    cleanRule (normalizeRule kvs) = some (canonicalRule kvs) := by
  obtain ⟨hn, t1, t2, t3, t4, t5, t6, t7, t8, t9⟩ := wfRuleB_parts h
  rw [normalizeRule_eq_of_wf h]
  have hg : lookupKv (normalizeBase kvs ++ nonFixed kvs) "groupName" =
      some (.str (getStr kvs "groupName")) :=
    lookupKv_append_left (by rw [base_groupName, getStr_of_tyStr t1]) _
  have hmm : lookupKv (normalizeBase kvs ++ nonFixed kvs) "matchManagers" =
      some (.arr (getArr kvs "matchManagers")) :=
    lookupKv_append_left (by rw [base_matchManagers, getArr_of_tyArr t2]) _
  have hmd : lookupKv (normalizeBase kvs ++ nonFixed kvs) "matchDatasources" =
      some (.arr (getArr kvs "matchDatasources")) :=
    lookupKv_append_left (by rw [base_matchDatasources, getArr_of_tyArr t3]) _
  have hmf : lookupKv (normalizeBase kvs ++ nonFixed kvs) "matchFileNames" =
      some (.arr (getArr kvs "matchFileNames")) :=
    lookupKv_append_left (by rw [base_matchFileNames, getArr_of_tyArr t4]) _
  have hmu : lookupKv (normalizeBase kvs ++ nonFixed kvs) "matchUpdateTypes" =
      some (.arr (getArr kvs "matchUpdateTypes")) :=
    lookupKv_append_left (by rw [base_matchUpdateTypes, getArr_of_tyArr t5]) _
  have hmdt : lookupKv (normalizeBase kvs ++ nonFixed kvs) "matchDepTypes" =
      some (.arr (getArr kvs "matchDepTypes")) :=
    lookupKv_append_left (by rw [base_matchDepTypes, getArr_of_tyArr t6]) _
  have hv : lookupKv (normalizeBase kvs ++ nonFixed kvs) "matchCurrentVersion" =
      some (.str (getStr kvs "matchCurrentVersion")) :=
    lookupKv_append_left (by rw [base_matchCurrentVersion, getStr_of_tyStr t7]) _
  have hT : lookupKv (normalizeBase kvs ++ nonFixed kvs) "automergeType" =
      some (.str (getAmt kvs)) :=
    lookupKv_append_left (by rw [base_automergeType, getAmt_of_tyAmt t9]) _
  have ha : lookupKv (normalizeBase kvs ++ nonFixed kvs) "automerge" =
      lookupKv kvs "automerge" := by
    cases hA : lookupKv kvs "automerge" with
    | some v => exact lookupKv_append_left ((base_automerge kvs).trans hA) _
    | none =>
        rw [lookupKv_append_right (by rw [base_automerge, hA]),
          lookup_nonFixed_fixed (by decide)]
  have hextras : (normalizeBase kvs ++ nonFixed kvs).filter
      (fun kv => !(fixedRuleNames.contains kv.1)) = nonFixed kvs := by
    rw [List.filter_append, filter_normalizeBase_nil, filter_nonFixed_self,
      List.nil_append]
  simp only [cleanRule, hg, hmm, hmd, hmf, hmu, hmdt, hv, hT, ha, hextras,
    arrOrThrow, Option.bind_eq_bind, Option.some_bind]
  rfl

/-! ### Lookups on the canonical exported rule -/

theorem lookupKv_amtSeg_ne {o w : Option Json} {k k' : String} (h : k' ≠ k)
    (rest : List (String × Json)) :
    lookupKv ((match o with
               | some (.bool true) => optField w k
               | _ => []) ++ rest) k' = lookupKv rest k' := by
  match o with
  | none => simp
  | some (.bool true) => exact lookupKv_optField_ne h rest
  | some (.bool false) | some .null | some (.num _) | some (.str _)
  | some (.arr _) | some (.obj _) => simp

theorem canon_lookup_g (kvs : List (String × Json)) :
    lookupKv (canonicalRule kvs) "groupName" =
      if truthy (.str (getStr kvs "groupName"))
      then some (.str (getStr kvs "groupName")) else none := by
  simp only [canonicalRule]
  rw [lookupKv_optField_self]
  congr 1
  rw [lookupKv_condSeg_ne (by decide), lookupKv_condSeg_ne (by decide),
    lookupKv_condSeg_ne (by decide), lookupKv_condSeg_ne (by decide),
    lookupKv_condSeg_ne (by decide), lookupKv_optField_ne (by decide),
    lookupKv_amSeg_ne (by decide), lookupKv_amtSeg_ne (by decide),
    lookup_nonFixed_fixed (by decide)]

theorem canon_lookup_mm (kvs : List (String × Json)) :
    lookupKv (canonicalRule kvs) "matchManagers" =
      if 0 < (cleanArray (getArr kvs "matchManagers")).length
      then some (.arr (cleanArray (getArr kvs "matchManagers"))) else none := by
  simp only [canonicalRule]
  rw [lookupKv_optField_ne (by decide), lookupKv_condSeg_self]
  congr 1
  rw [lookupKv_condSeg_ne (by decide), lookupKv_condSeg_ne (by decide),
    lookupKv_condSeg_ne (by decide), lookupKv_condSeg_ne (by decide),
    lookupKv_optField_ne (by decide), lookupKv_amSeg_ne (by decide),
    lookupKv_amtSeg_ne (by decide), lookup_nonFixed_fixed (by decide)]

theorem canon_lookup_md (kvs : List (String × Json)) :
    lookupKv (canonicalRule kvs) "matchDatasources" =
      if 0 < (cleanArray (getArr kvs "matchDatasources")).length
      then some (.arr (cleanArray (getArr kvs "matchDatasources"))) else none := by
  simp only [canonicalRule]
  rw [lookupKv_optField_ne (by decide), lookupKv_condSeg_ne (by decide),
    lookupKv_condSeg_self]
  congr 1
  rw [lookupKv_condSeg_ne (by decide), lookupKv_condSeg_ne (by decide),
    lookupKv_condSeg_ne (by decide), lookupKv_optField_ne (by decide),
    lookupKv_amSeg_ne (by decide), lookupKv_amtSeg_ne (by decide),
    lookup_nonFixed_fixed (by decide)]

theorem canon_lookup_mf (kvs : List (String × Json)) :
    lookupKv (canonicalRule kvs) "matchFileNames" =
      if 0 < (cleanArray (getArr kvs "matchFileNames")).length
      then some (.arr (cleanArray (getArr kvs "matchFileNames"))) else none := by
  simp only [canonicalRule]
  rw [lookupKv_optField_ne (by decide), lookupKv_condSeg_ne (by decide),
    lookupKv_condSeg_ne (by decide), lookupKv_condSeg_self]
  congr 1
  rw [lookupKv_condSeg_ne (by decide), lookupKv_condSeg_ne (by decide),
    lookupKv_optField_ne (by decide), lookupKv_amSeg_ne (by decide),
    lookupKv_amtSeg_ne (by decide), lookup_nonFixed_fixed (by decide)]

theorem canon_lookup_mu (kvs : List (String × Json)) :
    lookupKv (canonicalRule kvs) "matchUpdateTypes" =
      if 0 < (cleanArray (getArr kvs "matchUpdateTypes")).length
      then some (.arr (cleanArray (getArr kvs "matchUpdateTypes"))) else none := by
  simp only [canonicalRule]
  rw [lookupKv_optField_ne (by decide), lookupKv_condSeg_ne (by decide),
    lookupKv_condSeg_ne (by decide), lookupKv_condSeg_ne (by decide),
    lookupKv_condSeg_self]
  congr 1
  rw [lookupKv_condSeg_ne (by decide), lookupKv_optField_ne (by decide),
    lookupKv_amSeg_ne (by decide), lookupKv_amtSeg_ne (by decide),
    lookup_nonFixed_fixed (by decide)]

theorem canon_lookup_mdt (kvs : List (String × Json)) :
    lookupKv (canonicalRule kvs) "matchDepTypes" =
      if 0 < (cleanArray (getArr kvs "matchDepTypes")).length
      then some (.arr (cleanArray (getArr kvs "matchDepTypes"))) else none := by
  simp only [canonicalRule]
  rw [lookupKv_optField_ne (by decide), lookupKv_condSeg_ne (by decide),
    lookupKv_condSeg_ne (by decide), lookupKv_condSeg_ne (by decide),
    lookupKv_condSeg_ne (by decide), lookupKv_condSeg_self]
  congr 1
  rw [lookupKv_optField_ne (by decide), lookupKv_amSeg_ne (by decide),
    lookupKv_amtSeg_ne (by decide), lookup_nonFixed_fixed (by decide)]

theorem canon_lookup_mcv (kvs : List (String × Json)) :
    lookupKv (canonicalRule kvs) "matchCurrentVersion" =
      if truthy (.str (getStr kvs "matchCurrentVersion"))
      then some (.str (getStr kvs "matchCurrentVersion")) else none := by
  simp only [canonicalRule]
  rw [lookupKv_optField_ne (by decide), lookupKv_condSeg_ne (by decide),
    lookupKv_condSeg_ne (by decide), lookupKv_condSeg_ne (by decide),
    lookupKv_condSeg_ne (by decide), lookupKv_condSeg_ne (by decide),
    lookupKv_optField_self]
  congr 1
  rw [lookupKv_amSeg_ne (by decide), lookupKv_amtSeg_ne (by decide),
    lookup_nonFixed_fixed (by decide)]

theorem canon_lookup_am (kvs : List (String × Json)) :
    lookupKv (canonicalRule kvs) "automerge" = lookupKv kvs "automerge" := by
  simp only [canonicalRule]
  rw [lookupKv_optField_ne (by decide), lookupKv_condSeg_ne (by decide),
    lookupKv_condSeg_ne (by decide), lookupKv_condSeg_ne (by decide),
    lookupKv_condSeg_ne (by decide), lookupKv_condSeg_ne (by decide),
    lookupKv_optField_ne (by decide),
    lookupKv_amSeg_self _ (by
      rw [lookupKv_amtSeg_ne (by decide), lookup_nonFixed_fixed (by decide)])]

theorem canon_lookup_amt_true {kvs : List (String × Json)}
    (hA : lookupKv kvs "automerge" = some (.bool true)) :
    lookupKv (canonicalRule kvs) "automergeType" =
      if truthy (.str (getAmt kvs)) then some (.str (getAmt kvs)) else none := by
  simp only [canonicalRule]
  rw [lookupKv_optField_ne (by decide), lookupKv_condSeg_ne (by decide),
    lookupKv_condSeg_ne (by decide), lookupKv_condSeg_ne (by decide),
    lookupKv_condSeg_ne (by decide), lookupKv_condSeg_ne (by decide),
    lookupKv_optField_ne (by decide), lookupKv_amSeg_ne (by decide), hA]
  rw [lookupKv_optField_self, lookup_nonFixed_fixed (by decide)]

theorem canon_lookup_amt_not {kvs : List (String × Json)}
    (hA : amIsTrueO (lookupKv kvs "automerge") = false) :
    lookupKv (canonicalRule kvs) "automergeType" = none := by
  simp only [canonicalRule]
  rw [lookupKv_optField_ne (by decide), lookupKv_condSeg_ne (by decide),
    lookupKv_condSeg_ne (by decide), lookupKv_condSeg_ne (by decide),
    lookupKv_condSeg_ne (by decide), lookupKv_condSeg_ne (by decide),
    lookupKv_optField_ne (by decide), lookupKv_amSeg_ne (by decide)]
  cases h : lookupKv kvs "automerge" with
  | none => simp [lookup_nonFixed_fixed (show fixedRuleNames.contains "automergeType" = true by decide)]
  | some v =>
      rw [h] at hA
      match v, hA with
      | .bool false, _ | .null, _ | .num _, _ | .str _, _ | .arr _, _ | .obj _, _ =>
          simp [lookup_nonFixed_fixed (show fixedRuleNames.contains "automergeType" = true by decide)]

/-! ### The canonical exported rule is well-formed -/

theorem nodupKeysL_iff {l : List String} : nodupKeysL l = true ↔ l.Nodup := by
  induction l with
  | nil => simp [nodupKeysL]
  | cons x rest ih =>
      simp [nodupKeysL, ih, List.nodup_cons]
      intro _h
      constructor
      · intro h1 h2
        exact h1 x h2 rfl
      · intro h1 y hy hyx
        exact h1 (hyx ▸ hy)

theorem keys_optField_sub2 (o : Option Json) (k : String) :
    List.Sublist (keysOf (optField o k)) [k] := by
  match o with
  | none => exact List.nil_sublist _
  | some v =>
      by_cases ht : truthy v <;> simp [optField, ht, keysOf]

theorem keys_condSeg_sub (c : Prop) [Decidable c] (k : String) (v : Json) :
    List.Sublist (keysOf (if c then [(k, v)] else [])) [k] := by
  by_cases hc : c <;> simp [hc, keysOf]

theorem keys_amSeg_sub (o : Option Json) (k : String) :
    List.Sublist (keysOf (match o with | some v => [(k, v)] | none => [])) [k] := by
  match o with
  | none => exact List.nil_sublist _
  | some v => simp [keysOf]

theorem keys_amtSeg_sub (o w : Option Json) (k : String) :
    List.Sublist (keysOf (match o with | some (.bool true) => optField w k | _ => [])) [k] := by
  match o with
  | none => exact List.nil_sublist _
  | some (.bool true) => exact keys_optField_sub2 w k
  | some (.bool false) | some .null | some (.num _) | some (.str _)
  | some (.arr _) | some (.obj _) => exact List.nil_sublist _

theorem keys_canonical_sublist (kvs : List (String × Json)) :
    List.Sublist (keysOf (canonicalRule kvs)) (fixedRuleNames ++ keysOf (nonFixed kvs)) := by
  simp only [canonicalRule, keysOf_append]
  show List.Sublist _ (["groupName"] ++ (["matchManagers"] ++ (["matchDatasources"] ++
    (["matchFileNames"] ++ (["matchUpdateTypes"] ++ (["matchDepTypes"] ++
    (["matchCurrentVersion"] ++ (["automerge"] ++ (["automergeType"] ++
    keysOf (nonFixed kvs))))))))))
  exact .append (keys_optField_sub2 _ _) (.append (keys_condSeg_sub _ _ _)
    (.append (keys_condSeg_sub _ _ _) (.append (keys_condSeg_sub _ _ _)
    (.append (keys_condSeg_sub _ _ _) (.append (keys_condSeg_sub _ _ _)
    (.append (keys_optField_sub2 _ _) (.append (keys_amSeg_sub _ _)
    (.append (keys_amtSeg_sub _ _ _) (List.Sublist.refl _)))))))))

theorem nodup_keys_canonical {kvs : List (String × Json)}
    (hn : nodupKeys kvs = true) : nodupKeys (canonicalRule kvs) = true := by
  rw [nodupKeysL_eq, nodupKeysL_iff]
  refine List.Nodup.sublist (keys_canonical_sublist kvs) ?_
  rw [List.nodup_append]
  refine ⟨by decide, ?_, ?_⟩
  · have hsub : List.Sublist (keysOf (nonFixed kvs)) (keysOf kvs) :=
      List.Sublist.map Prod.fst (List.filter_sublist kvs)
    exact List.Nodup.sublist hsub (nodupKeysL_iff.mp (nodupKeysL_eq kvs ▸ hn))
  · intro x hx hy
    have hcont : fixedRuleNames.contains x = true := by
      simpa using hx
    exact absurd hy (lookupKv_eq_none_iff.mp (lookup_nonFixed_fixed hcont))

theorem amIsTrueO_true_iff {o : Option Json} :
    amIsTrueO o = true ↔ o = some (.bool true) := by
  match o with
  | none => simp [amIsTrueO]
  | some (.bool true) => simp [amIsTrueO]
  | some (.bool false) | some .null | some (.num _) | some (.str _)
  | some (.arr _) | some (.obj _) => simp [amIsTrueO]

theorem getAmt_branch_or_pr {kvs : List (String × Json)}
    (h : optTyAmt (lookupKv kvs "automergeType") = true) :
    getAmt kvs = "branch" ∨ getAmt kvs = "pr" := by
  rw [getAmt]
  cases hl : lookupKv kvs "automergeType" with
  | none => left; rfl
  | some v =>
      rw [hl] at h
      match v, h with
      | .str s, h => simpa [optTyAmt] using h

theorem truthy_getAmt {kvs : List (String × Json)}
    (h : optTyAmt (lookupKv kvs "automergeType") = true) :
    truthy (.str (getAmt kvs)) = true := by
  rcases getAmt_branch_or_pr h with h2 | h2 <;> simp [truthy, h2]

theorem getArr_all_str {kvs : List (String × Json)} {k : String}
    (h : optTyStrArr (lookupKv kvs k) = true) :
    (getArr kvs k).all Json.isStr = true := by
  rw [getArr]
  cases hl : lookupKv kvs k with
  | none => rfl
  | some v =>
      rw [hl] at h
      match v, h with
      | .arr xs, h => simpa [optTyStrArr] using h

theorem cleanArray_all {xs : List Json} {p : Json → Bool}
    (h : xs.all p = true) : (cleanArray xs).all p = true := by
  rw [List.all_eq_true] at h ⊢
  intro v hv
  exact h v (List.mem_filter.mp hv).1

theorem cleanArray_idem (xs : List Json) : cleanArray (cleanArray xs) = cleanArray xs := by
  simp only [cleanArray]
  exact List.filter_eq_self.mpr (fun _v hv => (List.mem_filter.mp hv).2)

theorem wf_canonicalRule {kvs : List (String × Json)} (h : wfRuleB kvs = true) :
    wfRuleB (canonicalRule kvs) = true := by
  obtain ⟨hn, t1, t2, t3, t4, t5, t6, t7, t8, t9⟩ := wfRuleB_parts h
  have harr : ∀ (k : String), optTyStrArr (lookupKv kvs k) = true →
      ∀ (r : Option Json), r = (if 0 < (cleanArray (getArr kvs k)).length
        then some (.arr (cleanArray (getArr kvs k))) else none) →
      optTyStrArr r = true := by
    intro k hk r hr
    subst hr
    by_cases hc : 0 < (cleanArray (getArr kvs k)).length <;>
      simp [hc, optTyStrArr]
    exact List.all_eq_true.mp (cleanArray_all (getArr_all_str hk))
  simp only [wfRuleB, Bool.and_eq_true]
  refine ⟨⟨⟨⟨⟨⟨⟨⟨⟨nodup_keys_canonical hn, ?_⟩, ?_⟩, ?_⟩, ?_⟩, ?_⟩, ?_⟩, ?_⟩, ?_⟩, ?_⟩
  · rw [canon_lookup_g]
    by_cases hc : truthy (.str (getStr kvs "groupName")) <;> simp [hc, optTyStr]
  · exact harr _ t2 _ (canon_lookup_mm kvs)
  · exact harr _ t3 _ (canon_lookup_md kvs)
  · exact harr _ t4 _ (canon_lookup_mf kvs)
  · exact harr _ t5 _ (canon_lookup_mu kvs)
  · exact harr _ t6 _ (canon_lookup_mdt kvs)
  · rw [canon_lookup_mcv]
    by_cases hc : truthy (.str (getStr kvs "matchCurrentVersion")) <;> simp [hc, optTyStr]
  · rw [canon_lookup_am]
    exact t8
  · cases hA : amIsTrueO (lookupKv kvs "automerge") with
    | true =>
        rw [canon_lookup_amt_true (amIsTrueO_true_iff.mp hA), truthy_getAmt t9]
        rcases getAmt_branch_or_pr t9 with h2 | h2 <;> simp [h2, optTyAmt]
    | false => rw [canon_lookup_amt_not hA]; rfl

/-! ### Exporting a canonical rule again changes nothing -/

theorem getStr_canonical_g (kvs : List (String × Json)) :
    getStr (canonicalRule kvs) "groupName" = getStr kvs "groupName" := by
  rw [getStr, canon_lookup_g]
  by_cases hc : getStr kvs "groupName" = ""
  · rw [hc]
    simp [truthy]
  · have ht : truthy (.str (getStr kvs "groupName")) = true := by simp [truthy, hc]
    rw [ht]
    simp

theorem getArr_canonical (kvs : List (String × Json)) (k : String)
    (h : lookupKv (canonicalRule kvs) k =
      if 0 < (cleanArray (getArr kvs k)).length
      then some (.arr (cleanArray (getArr kvs k))) else none) :
    getArr (canonicalRule kvs) k = cleanArray (getArr kvs k) := by
  rw [getArr, h]
  by_cases hc : 0 < (cleanArray (getArr kvs k)).length
  · simp [hc]
  · simp [hc]
    have hz : (cleanArray (getArr kvs k)).length = 0 := Nat.eq_zero_of_not_pos hc
    exact List.length_eq_zero.mp hz

theorem getStr_canonical_mcv (kvs : List (String × Json)) :
    getStr (canonicalRule kvs) "matchCurrentVersion" = getStr kvs "matchCurrentVersion" := by
  rw [getStr, canon_lookup_mcv]
  by_cases hc : getStr kvs "matchCurrentVersion" = ""
  · rw [hc]
    simp [truthy]
  · have ht : truthy (.str (getStr kvs "matchCurrentVersion")) = true := by
      simp [truthy, hc]
    rw [ht]
    simp

theorem getAmt_canonical_true {kvs : List (String × Json)}
    (hA : lookupKv kvs "automerge" = some (.bool true))
    (t9 : optTyAmt (lookupKv kvs "automergeType") = true) :
    getAmt (canonicalRule kvs) = getAmt kvs := by
  rw [getAmt, canon_lookup_amt_true hA, truthy_getAmt t9]
  simp

theorem filter_optField_nil {o : Option Json} {k : String}
    (h : fixedRuleNames.contains k = true) :
    (optField o k).filter (fun kv => !(fixedRuleNames.contains kv.1)) = [] := by
  have hmem : k ∈ fixedRuleNames := by simpa using h
  match o with
  | none => rfl
  | some v => by_cases ht : truthy v <;> simp [optField, ht, hmem]

theorem filter_condSeg_nil {c : Prop} [Decidable c] {k : String} {v : Json}
    (h : fixedRuleNames.contains k = true) :
    (if c then [(k, v)] else []).filter (fun kv => !(fixedRuleNames.contains kv.1)) = [] := by
  have hmem : k ∈ fixedRuleNames := by simpa using h
  by_cases hc : c <;> simp [hc, hmem]

theorem filter_amSeg_nil {o : Option Json} :
    ((match o with | some v => [("automerge", v)] | none => []) :
      List (String × Json)).filter (fun kv => !(fixedRuleNames.contains kv.1)) = [] := by
  match o with
  | none => rfl
  | some v => simp [fixedRuleNames]

theorem filter_amtSeg_nil {o w : Option Json} :
    ((match o with | some (.bool true) => optField w "automergeType" | _ => []) :
      List (String × Json)).filter (fun kv => !(fixedRuleNames.contains kv.1)) = [] := by
  match o with
  | none => rfl
  | some (.bool true) => exact filter_optField_nil (by decide)
  | some (.bool false) | some .null | some (.num _) | some (.str _)
  | some (.arr _) | some (.obj _) => rfl

theorem nonFixed_canonical (kvs : List (String × Json)) :
    nonFixed (canonicalRule kvs) = nonFixed kvs := by
  conv_lhs => rw [nonFixed, canonicalRule]
  rw [List.filter_append, List.filter_append, List.filter_append,
    List.filter_append, List.filter_append, List.filter_append,
    List.filter_append, List.filter_append, List.filter_append]
  rw [filter_optField_nil (by decide), filter_condSeg_nil (by decide),
    filter_condSeg_nil (by decide), filter_condSeg_nil (by decide),
    filter_condSeg_nil (by decide), filter_condSeg_nil (by decide),
    filter_optField_nil (by decide), filter_amSeg_nil, filter_amtSeg_nil,
    filter_nonFixed_self]
  simp

theorem canonicalRule_idem {kvs : List (String × Json)} (h : wfRuleB kvs = true) :
    canonicalRule (canonicalRule kvs) = canonicalRule kvs := by
  obtain ⟨hn, t1, t2, t3, t4, t5, t6, t7, t8, t9⟩ := wfRuleB_parts h
  conv_lhs => rw [canonicalRule]
  rw [getStr_canonical_g, getStr_canonical_mcv,
    getArr_canonical kvs "matchManagers" (canon_lookup_mm kvs),
    getArr_canonical kvs "matchDatasources" (canon_lookup_md kvs),
    getArr_canonical kvs "matchFileNames" (canon_lookup_mf kvs),
    getArr_canonical kvs "matchUpdateTypes" (canon_lookup_mu kvs),
    getArr_canonical kvs "matchDepTypes" (canon_lookup_mdt kvs),
    nonFixed_canonical]
  simp only [cleanArray_idem, canon_lookup_am]
  cases hA : amIsTrueO (lookupKv kvs "automerge") with
  | true =>
      rw [amIsTrueO_true_iff.mp hA, getAmt_canonical_true (amIsTrueO_true_iff.mp hA) t9]
      conv_rhs => rw [canonicalRule]
      rw [amIsTrueO_true_iff.mp hA]
  | false =>
      conv_rhs => rw [canonicalRule]
      cases hl : lookupKv kvs "automerge" with
      | none => rfl
      | some v =>
          rw [hl] at hA
          match v, hA with
          | .bool false, _ | .null, _ | .num _, _ | .str _, _ | .arr _, _ | .obj _, _ => rfl

/-! ### Document-level load-then-export -/

theorem mapM_eq_map_of {l : List Json} {f : Json → Option Json} {g : Json → Json}
    (h : ∀ e ∈ l, f e = some (g e)) : l.mapM f = some (l.map g) := by
  induction l with
  | nil => rfl
  | cons a t ih =>
      rw [List.mapM_cons, h a (List.mem_cons_self a t),
        ih (fun e he => h e (List.mem_cons_of_mem _ he))]
      rfl

theorem mapM_map_eq {l : List Json} {f : Json → Option Json} {m g : Json → Json}
    (h : ∀ e ∈ l, f (m e) = some (g e)) : (l.map m).mapM f = some (l.map g) := by
  induction l with
  | nil => rfl
  | cons a t ih =>
      rw [List.map_cons, List.mapM_cons, h a (List.mem_cons_self a t),
        ih (fun e he => h e (List.mem_cons_of_mem _ he))]
      rfl

theorem cleanRuleEntry_norm_of_wf {ekvs : List (String × Json)}
    (h : wfRuleB ekvs = true) :
    cleanRuleEntry (.obj (normalizeRule ekvs)) = some (.obj (canonicalRule ekvs)) := by
  simp [cleanRuleEntry, entryProps, cleanRule_normalizeRule_of_wf h]

theorem wfDocB_pr_cases {kvs : List (String × Json)} (h : wfDocB (.obj kvs) = true) :
    lookupKv kvs "packageRules" = none ∨
    ∃ rules, lookupKv kvs "packageRules" = some (.arr rules) ∧
      ∀ e ∈ rules, wfRuleEntryB e = true := by
  simp only [wfDocB, Bool.and_eq_true] at h
  obtain ⟨_hn, h2⟩ := h
  cases hl : lookupKv kvs "packageRules" with
  | none => exact Or.inl rfl
  | some v =>
      rw [hl] at h2
      match v, h2 with
      | .arr rules, h2 =>
          exact Or.inr ⟨rules, rfl, by simpa [List.all_eq_true] using h2⟩

theorem exportLoad_no_pr {kvs : List (String × Json)}
    (h : lookupKv kvs "packageRules" = none) :
    exportLoad (.obj kvs) = some (.obj kvs) := by
  simp [exportLoad, loadNormalize, cleanConfig, entryProps, h]

theorem exportLoad_pr {kvs : List (String × Json)} {rules : List Json}
    (hpr : lookupKv kvs "packageRules" = some (.arr rules))
    (hall : ∀ e ∈ rules, wfRuleEntryB e = true) :
    exportLoad (.obj kvs) =
      some (.obj (setKey kvs "packageRules" (.arr (rules.map canonEntryFn)))) := by
  have hnorm : ∀ e ∈ rules, normalizeEntry e = some (normEntryFn e) := by
    intro e he
    have := hall e he
    match e, this with
    | .obj ekvs, _ => rfl
  have h1 : rules.mapM normalizeEntry = some (rules.map normEntryFn) :=
    mapM_eq_map_of hnorm
  have hL : loadNormalize (.obj kvs) =
      some (.obj (setKey kvs "packageRules" (.arr (rules.map normEntryFn)))) := by
    have hshape : loadNormalize (.obj kvs) =
        (rules.mapM normalizeEntry).map
          (fun rs => jsSet (.obj kvs) "packageRules" (.arr rs)) := by
      simp only [loadNormalize, entryProps]
      rw [hpr]
      rfl
    rw [hshape, h1]
    rfl
  have hclean : ∀ e ∈ rules, cleanRuleEntry (normEntryFn e) = some (canonEntryFn e) := by
    intro e he
    have := hall e he
    match e, this with
    | .obj ekvs, hw => exact cleanRuleEntry_norm_of_wf hw
  have h2 : (rules.map normEntryFn).mapM cleanRuleEntry =
      some (rules.map canonEntryFn) := mapM_map_eq hclean
  have hC : cleanConfig (.obj (setKey kvs "packageRules" (.arr (rules.map normEntryFn)))) =
      some (.obj (setKey kvs "packageRules" (.arr (rules.map canonEntryFn)))) := by
    have hshape : cleanConfig (.obj (setKey kvs "packageRules" (.arr (rules.map normEntryFn)))) =
        ((rules.map normEntryFn).mapM cleanRuleEntry).map
          (fun rs => jsSet (.obj (setKey kvs "packageRules" (.arr (rules.map normEntryFn))))
            "packageRules" (.arr rs)) := by
      simp only [cleanConfig, entryProps]
      rw [lookupKv_setKey_self]
      rfl
    rw [hshape, h2]
    simp [jsSet, setKey_setKey]
  rw [exportLoad, hL]
  exact hC

/-- Applying `canonEntryFn` twice to a well-formed rule entry is the same
as applying it once. -/
theorem canonEntryFn_idem {e : Json} (h : wfRuleEntryB e = true) :
    canonEntryFn (canonEntryFn e) = canonEntryFn e := by
  match e, h with
  | .obj ekvs, h => simp [canonEntryFn, canonicalRule_idem h]

theorem wfRuleEntryB_canon {e : Json} (h : wfRuleEntryB e = true) :
    wfRuleEntryB (canonEntryFn e) = true := by
  match e, h with
  | .obj ekvs, h => simpa [canonEntryFn, wfRuleEntryB] using wf_canonicalRule h

/-! ### Claim C1 -/

/-- C1: For every Configuration Document `d` (an object document conforming
to the data model, `wfDocB`: `packageRules`, when present, is a sequence of
rule objects with well-typed recognized fields), one Load followed by
Export is idempotent as a document transformation:
`Export(Load(d))` is defined, and `Export(Load(Export(Load(d)))) =
Export(Load(d))`. -/
theorem c1_load_export_idempotent (d : Json) (h : wfDocB d = true) :
    ∃ e, exportLoad d = some e ∧ exportLoad e = some e := by
  match d, h with
  | .obj kvs, h =>
      rcases wfDocB_pr_cases h with hnone | ⟨rules, hpr, hall⟩
      · exact ⟨.obj kvs, exportLoad_no_pr hnone, exportLoad_no_pr hnone⟩
      · refine ⟨.obj (setKey kvs "packageRules" (.arr (rules.map canonEntryFn))),
          exportLoad_pr hpr hall, ?_⟩
        have hpr2 : lookupKv (setKey kvs "packageRules" (.arr (rules.map canonEntryFn)))
            "packageRules" = some (.arr (rules.map canonEntryFn)) :=
          lookupKv_setKey_self _ _ _
        have hall2 : ∀ e ∈ rules.map canonEntryFn, wfRuleEntryB e = true := by
          intro e he
          obtain ⟨a, ha, rfl⟩ := List.mem_map.mp he
          exact wfRuleEntryB_canon (hall a ha)
        rw [exportLoad_pr hpr2 hall2]
        have hmaps : (rules.map canonEntryFn).map canonEntryFn = rules.map canonEntryFn := by
          rw [List.map_map]
          refine List.map_congr_left (fun a ha => ?_)
          simpa [Function.comp] using canonEntryFn_idem (hall a ha)
        rw [hmaps, setKey_setKey]

/-- Witness for C1 at a concrete well-formed document. -/
theorem c1_load_export_idempotent_witness :
    wfDocB (.obj [("labels", .arr [.str "x"]),
      ("packageRules", .arr
        [.obj [("automerge", .bool true)],
         .obj [("groupName", .str "g"),
               ("matchManagers", .arr [.str "", .str "npm"]),
               ("extra", .num 5)]])]) = true
    ∧ ∃ e, exportLoad (.obj [("labels", .arr [.str "x"]),
      ("packageRules", .arr
        [.obj [("automerge", .bool true)],
         .obj [("groupName", .str "g"),
               ("matchManagers", .arr [.str "", .str "npm"]),
               ("extra", .num 5)]])]) = some e ∧ exportLoad e = some e :=
  ⟨by decide, c1_load_export_idempotent _ (by decide)⟩

/-! ### Claim C2 -/

theorem cleanRule_some_elim {rule : List (String × Json)} {out : List (String × Json)}
    (h : cleanRule rule = some out) :
    ∃ mm md mf mu mdt : List Json,
      out = optField (lookupKv rule "groupName") "groupName"
        ++ ((if 0 < (cleanArray mm).length then [("matchManagers", Json.arr (cleanArray mm))] else [])
        ++ ((if 0 < (cleanArray md).length then [("matchDatasources", Json.arr (cleanArray md))] else [])
        ++ ((if 0 < (cleanArray mf).length then [("matchFileNames", Json.arr (cleanArray mf))] else [])
        ++ ((if 0 < (cleanArray mu).length then [("matchUpdateTypes", Json.arr (cleanArray mu))] else [])
        ++ ((if 0 < (cleanArray mdt).length then [("matchDepTypes", Json.arr (cleanArray mdt))] else [])
        ++ (optField (lookupKv rule "matchCurrentVersion") "matchCurrentVersion"
        ++ ((match lookupKv rule "automerge" with
            | some v => [("automerge", v)]
            | none => [])
        ++ ((match lookupKv rule "automerge" with
            | some (.bool true) => optField (lookupKv rule "automergeType") "automergeType"
            | _ => [])
        ++ rule.filter (fun kv => !(fixedRuleNames.contains kv.1)))))))))) := by
  simp only [cleanRule] at h
  cases h1 : arrOrThrow (lookupKv rule "matchManagers") with
  | none => rw [h1] at h; simp at h
  | some mm =>
  rw [h1] at h
  cases h2 : arrOrThrow (lookupKv rule "matchDatasources") with
  | none => rw [h2] at h; simp at h
  | some md =>
  rw [h2] at h
  cases h3 : arrOrThrow (lookupKv rule "matchFileNames") with
  | none => rw [h3] at h; simp at h
  | some mf =>
  rw [h3] at h
  cases h4 : arrOrThrow (lookupKv rule "matchUpdateTypes") with
  | none => rw [h4] at h; simp at h
  | some mu =>
  rw [h4] at h
  cases h5 : arrOrThrow (lookupKv rule "matchDepTypes") with
  | none => rw [h5] at h; simp at h
  | some mdt =>
  rw [h5] at h
  simp only [Option.bind_eq_bind, Option.some_bind, Option.pure_def] at h
  injection h with h
  exact ⟨mm, md, mf, mu, mdt, h.symm⟩

theorem filterKey_optField_ne {k q : String} (o : Option Json) (h : (k == q) = false) :
    (optField o k).filter (fun kv => kv.1 == q) = [] := by
  match o with
  | none => rfl
  | some v => by_cases ht : truthy v <;> simp [optField, ht, List.filter_cons, h]

theorem filterKey_optField_self {q : String} (o : Option Json) :
    (optField o q).filter (fun kv => kv.1 == q) = optField o q := by
  match o with
  | none => rfl
  | some v => by_cases ht : truthy v <;> simp [optField, ht, List.filter_cons]

theorem filterKey_condSeg_ne {c : Prop} [Decidable c] {k q : String} {v : Json}
    (h : (k == q) = false) :
    (((if c then [(k, v)] else []) : List (String × Json)).filter
      (fun kv => kv.1 == q)) = [] := by
  by_cases hc : c <;> simp [hc, List.filter_cons, h]

theorem filterKey_amSeg_self (o : Option Json) (k : String) :
    ((match o with | some v => [(k, v)] | none => []) : List (String × Json)).filter
      (fun kv => kv.1 == k) =
      (match o with | some v => [(k, v)] | none => []) := by
  match o with
  | none => rfl
  | some v => simp [List.filter_cons]

theorem filterKey_amSeg_ne {k q : String} (o : Option Json) (h : (k == q) = false) :
    ((match o with | some v => [(k, v)] | none => []) : List (String × Json)).filter
      (fun kv => kv.1 == q) = [] := by
  match o with
  | none => rfl
  | some v => simp [List.filter_cons, h]

theorem filterKey_amtSeg_ne {o w : Option Json} {k q : String} (h : (k == q) = false) :
    ((match o with
      | some (.bool true) => optField w k
      | _ => []) : List (String × Json)).filter (fun kv => kv.1 == q) = [] := by
  match o with
  | none => rfl
  | some (.bool true) => exact filterKey_optField_ne w h
  | some (.bool false) | some .null | some (.num _) | some (.str _)
  | some (.arr _) | some (.obj _) => rfl

theorem filterKey_amtSeg_self (o w : Option Json) :
    ((match o with
      | some (.bool true) => optField w "automergeType"
      | _ => []) : List (String × Json)).filter (fun kv => kv.1 == "automergeType") =
      (match o with
        | some (.bool true) => optField w "automergeType"
        | _ => []) := by
  match o with
  | none => rfl
  | some (.bool true) => exact filterKey_optField_self w
  | some (.bool false) | some .null | some (.num _) | some (.str _)
  | some (.arr _) | some (.obj _) => rfl

theorem filterKey_extras {q : String} (rule : List (String × Json))
    (h : fixedRuleNames.contains q = true) :
    (rule.filter (fun kv => !(fixedRuleNames.contains kv.1))).filter
      (fun kv => kv.1 == q) = [] := by
  rw [List.filter_eq_nil_iff]
  intro kv hmem hq
  have h2 := (List.mem_filter.mp hmem).2
  have hk : kv.1 = q := by simpa using hq
  rw [hk, h] at h2
  exact absurd h2 (by decide)

/-- C2: For every Package Rule, Export emits the `automerge` field exactly
when it is present in the rule (whether `true` or `false`), carrying the
rule's own value: the exported rule's entries at key `automerge`, taken
across the entire rule (the preserved extras included), are exactly that
one value, so no later entry can shadow it; every `automergeType` entry
anywhere in the exported rule requires `automerge` to be strictly `true`
and carries the rule's own `automergeType`; a rule whose `automerge` is
absent or `false` has no `automergeType` entry anywhere in the exported
rule. -/
theorem c2_automerge_emission (rule out : List (String × Json))
    (h : cleanRule rule = some out) :
    lookupKv out "automerge" = lookupKv rule "automerge"
    ∧ (out.filter (fun kv => kv.1 == "automerge")).map Prod.snd
        = (lookupKv rule "automerge").toList
    ∧ (∀ v, ("automergeType", v) ∈ out →
        lookupKv rule "automerge" = some (.bool true)
        ∧ lookupKv rule "automergeType" = some v)
    ∧ ((lookupKv rule "automerge" = none ∨
        lookupKv rule "automerge" = some (.bool false)) →
        out.filter (fun kv => kv.1 == "automergeType") = []) := by
  obtain ⟨mm, md, mf, mu, mdt, hout⟩ := cleanRule_some_elim h
  have hFilterAm : out.filter (fun kv => kv.1 == "automerge") =
      (match lookupKv rule "automerge" with
        | some v => [("automerge", v)] | none => []) := by
    rw [hout]
    simp only [List.filter_append]
    rw [filterKey_optField_ne _ (by decide), filterKey_condSeg_ne (by decide),
        filterKey_condSeg_ne (by decide), filterKey_condSeg_ne (by decide),
        filterKey_condSeg_ne (by decide), filterKey_condSeg_ne (by decide),
        filterKey_optField_ne _ (by decide), filterKey_amSeg_self,
        filterKey_amtSeg_ne (by decide), filterKey_extras _ (by decide)]
    simp only [List.nil_append, List.append_nil]
  have hFilterAmt : out.filter (fun kv => kv.1 == "automergeType") =
      (match lookupKv rule "automerge" with
        | some (.bool true) => optField (lookupKv rule "automergeType") "automergeType"
        | _ => []) := by
    rw [hout]
    simp only [List.filter_append]
    rw [filterKey_optField_ne _ (by decide), filterKey_condSeg_ne (by decide),
        filterKey_condSeg_ne (by decide), filterKey_condSeg_ne (by decide),
        filterKey_condSeg_ne (by decide), filterKey_condSeg_ne (by decide),
        filterKey_optField_ne _ (by decide), filterKey_amSeg_ne _ (by decide),
        filterKey_amtSeg_self, filterKey_extras _ (by decide)]
    simp only [List.nil_append, List.append_nil]
  refine ⟨?_, ?_, ?_, ?_⟩
  · rw [hout]
    rw [lookupKv_optField_ne (by decide), lookupKv_condSeg_ne (by decide),
      lookupKv_condSeg_ne (by decide), lookupKv_condSeg_ne (by decide),
      lookupKv_condSeg_ne (by decide), lookupKv_condSeg_ne (by decide),
      lookupKv_optField_ne (by decide),
      lookupKv_amSeg_self _ (by
        rw [lookupKv_amtSeg_ne (by decide)]
        exact lookup_nonFixed_fixed (by decide))]
  · rw [hFilterAm]
    cases lookupKv rule "automerge" <;> rfl
  · intro v hv
    have hmemf : ("automergeType", v) ∈ out.filter (fun kv => kv.1 == "automergeType") :=
      List.mem_filter.mpr ⟨hv, by simp⟩
    rw [hFilterAmt] at hmemf
    cases hA : lookupKv rule "automerge" with
    | none => rw [hA] at hmemf; simp at hmemf
    | some w =>
        rw [hA] at hmemf
        match w, hA, hmemf with
        | .bool true, hA, hmemf =>
            refine ⟨rfl, ?_⟩
            cases hT : lookupKv rule "automergeType" with
            | none => rw [hT] at hmemf; simp [optField] at hmemf
            | some u =>
                rw [hT] at hmemf
                by_cases ht : truthy u
                · simp only [optField, ht, if_true, List.mem_singleton,
                    Prod.mk.injEq, true_and] at hmemf
                  rw [hmemf]
                · simp [optField, ht] at hmemf
        | .bool false, hA, hmemf | .null, hA, hmemf | .num _, hA, hmemf
        | .str _, hA, hmemf | .arr _, hA, hmemf | .obj _, hA, hmemf =>
            simp at hmemf
  · intro hcase
    rw [hFilterAmt]
    rcases hcase with hc | hc <;> rw [hc]

/-- Witness for C2 at a concrete rule with `automerge: false` and an
`automergeType` that is consequently dropped. -/
theorem c2_automerge_emission_witness :
    cleanRule [("automerge", .bool false), ("automergeType", .str "pr")] =
      some [("automerge", .bool false)]
    ∧ (lookupKv [("automerge", Json.bool false)] "automerge" =
        lookupKv [("automerge", .bool false), ("automergeType", .str "pr")] "automerge"
      ∧ (([("automerge", Json.bool false)] : List (String × Json)).filter
            (fun kv => kv.1 == "automerge")).map Prod.snd =
          (lookupKv [("automerge", .bool false), ("automergeType", .str "pr")]
            "automerge").toList
      ∧ (∀ v, ("automergeType", v) ∈ ([("automerge", Json.bool false)] :
            List (String × Json)) →
          lookupKv [("automerge", .bool false), ("automergeType", .str "pr")] "automerge" =
            some (.bool true)
          ∧ lookupKv [("automerge", .bool false), ("automergeType", .str "pr")]
              "automergeType" = some v)
      ∧ ((lookupKv [("automerge", .bool false), ("automergeType", .str "pr")] "automerge" = none ∨
          lookupKv [("automerge", .bool false), ("automergeType", .str "pr")] "automerge" =
            some (.bool false)) →
          ([("automerge", Json.bool false)] : List (String × Json)).filter
            (fun kv => kv.1 == "automergeType") = [])) :=
  ⟨rfl, c2_automerge_emission _ _ rfl⟩

/-! ### Claim C6 -/

theorem mem_of_lookup_some {a : List (String × Json)} {k : String} {v : Json}
    (h : lookupKv a k = some v) : (k, v) ∈ a := by
  induction a with
  | nil => simp at h
  | cons hd tl ih =>
      obtain ⟨k', v'⟩ := hd
      by_cases hk : k = k' <;> simp [hk] at h
      · simp [hk, h]
      · exact List.mem_cons_of_mem _ (ih h)

theorem contains9_of_not8 {k : String} (h8 : fixedNames8.contains k = false)
    (ham : k ≠ "automerge") : fixedRuleNames.contains k = false := by
  simp [fixedNames8, ruleDefaults8, keysOf] at h8
  simp [fixedRuleNames]
  obtain ⟨h1, h2, h3, h4, h5, h6, h7, h9⟩ := h8
  exact ⟨h1, h2, h3, h4, h5, h6, h7, ham, h9⟩

/-- C6: Load replaces the working document with a (deep-copied) document
in which every entry of `packageRules` is normalized: each of the eight
defaulted rule fields that is absent is filled with its type's empty
default (`""` for `groupName`/`matchCurrentVersion`, `[]` for the five
match-condition lists, `"branch"` for `automergeType`), while every field
outside that fixed set — `automerge` included — keeps exactly the value it
had (absence included); all other top-level keys are untouched, and no
editor operation ever writes to the source document held by the parent. -/
theorem c6_load_normalizes (kvs : List (String × Json)) (rules : List Json)
    (hpr : lookupKv kvs "packageRules" = some (.arr rules))
    (hrules : rules.all isObjNodup = true) :
    loadNormalize (.obj kvs) =
      some (.obj (setKey kvs "packageRules" (.arr (rules.map normEntryFn))))
    ∧ (∀ k, k ≠ "packageRules" →
        lookupKv (setKey kvs "packageRules" (.arr (rules.map normEntryFn))) k =
          lookupKv kvs k)
    ∧ (∀ rkvs, Json.obj rkvs ∈ rules →
        (∀ f dflt, (f, dflt) ∈ ruleDefaults8 → lookupKv rkvs f = none →
          lookupKv (normalizeRule rkvs) f = some dflt)
        ∧ (∀ k, fixedNames8.contains k = false →
          lookupKv (normalizeRule rkvs) k = lookupKv rkvs k))
    ∧ (∀ parse stringify op a, (appApply parse stringify op a).source = a.source) := by
  rw [List.all_eq_true] at hrules
  refine ⟨?_, ?_, ?_, ?_⟩
  · have hnorm : ∀ e ∈ rules, normalizeEntry e = some (normEntryFn e) := by
      intro e he
      have := hrules e he
      match e, this with
      | .obj ekvs, _ => rfl
    have hshape : loadNormalize (.obj kvs) =
        (rules.mapM normalizeEntry).map
          (fun rs => jsSet (.obj kvs) "packageRules" (.arr rs)) := by
      simp only [loadNormalize, entryProps]
      rw [hpr]
      rfl
    rw [hshape, mapM_eq_map_of hnorm]
    rfl
  · intro k hk
    exact lookupKv_setKey_ne _ _ hk
  · intro rkvs hm
    have hnd : nodupKeys rkvs = true := by simpa [isObjNodup] using hrules _ hm
    constructor
    · intro f dflt hfd habs
      rw [normalizeRule, lookup_spreadFold_not_mem habs]
      simp [ruleDefaults8] at hfd
      rcases hfd with ⟨hf, hd⟩ | ⟨hf, hd⟩ | ⟨hf, hd⟩ | ⟨hf, hd⟩ | ⟨hf, hd⟩
        | ⟨hf, hd⟩ | ⟨hf, hd⟩ | ⟨hf, hd⟩ <;> subst hf <;> subst hd
      · rw [base_groupName, habs]
        rfl
      · rw [base_matchManagers, habs]
        rfl
      · rw [base_matchDatasources, habs]
        rfl
      · rw [base_matchFileNames, habs]
        rfl
      · rw [base_matchUpdateTypes, habs]
        rfl
      · rw [base_matchDepTypes, habs]
        rfl
      · rw [base_matchCurrentVersion, habs]
        rfl
      · rw [base_automergeType, habs]
        rfl
    · intro k h8
      by_cases ham : k = "automerge"
      · subst ham
        cases hA : lookupKv rkvs "automerge" with
        | some v => exact lookup_spreadFold_mem hnd (mem_of_lookup_some hA) _
        | none =>
            rw [normalizeRule, lookup_spreadFold_not_mem hA, base_automerge, hA]
      · have h9 := contains9_of_not8 h8 ham
        cases hl : lookupKv rkvs k with
        | some v => exact lookup_spreadFold_mem hnd (mem_of_lookup_some hl) _
        | none =>
            rw [normalizeRule, lookup_spreadFold_not_mem hl, base_other _ h9]
  · intro parse stringify op a
    cases op <;> rfl

/-- Witness for C6 on a document with one partially filled rule. -/
theorem c6_load_normalizes_witness :
    lookupKv [("packageRules", Json.arr [.obj [("automerge", .bool false), ("x", .num 7)]])]
      "packageRules" = some (.arr [.obj [("automerge", .bool false), ("x", .num 7)]])
    ∧ ([Json.obj [("automerge", .bool false), ("x", .num 7)]].all isObjNodup = true)
    ∧ (loadNormalize (.obj [("packageRules",
        Json.arr [.obj [("automerge", .bool false), ("x", .num 7)]])]) =
      some (.obj (setKey [("packageRules",
        Json.arr [.obj [("automerge", .bool false), ("x", .num 7)]])] "packageRules"
        (.arr ([Json.obj [("automerge", .bool false), ("x", .num 7)]].map normEntryFn))))) :=
  ⟨rfl, by decide,
    (c6_load_normalizes
      [("packageRules", Json.arr [.obj [("automerge", .bool false), ("x", .num 7)]])]
      [Json.obj [("automerge", .bool false), ("x", .num 7)]]
      rfl (by decide)).1⟩

/-! ### Claim C10 -/

/-- C10: Computing the export never mutates the working document — the
clipboard-copy and download operations leave the application state
untouched — and the exported document has exactly the working document's
keys and carries exactly its values at every top-level key other than
`packageRules`. -/
theorem c10_export_frame (kvs : List (String × Json)) (out : Json)
    (h : cleanConfig (.obj kvs) = some out) :
    (∃ kvs2, out = .obj kvs2 ∧ keysOf kvs2 = keysOf kvs ∧
      ∀ k, k ≠ "packageRules" → lookupKv kvs2 k = lookupKv kvs k)
    ∧ (∀ parse stringify a, appApply parse stringify .copyClipboard a = a
        ∧ appApply parse stringify .download a = a) := by
  refine ⟨?_, fun parse stringify a => ⟨rfl, rfl⟩⟩
  cases hl : lookupKv kvs "packageRules" with
  | none =>
      have heq : cleanConfig (.obj kvs) = some (.obj kvs) := by
        simp only [cleanConfig, entryProps]
        rw [hl]
      rw [heq] at h
      injection h with h
      exact ⟨kvs, h.symm, rfl, fun k _ => rfl⟩
  | some v =>
      by_cases ht : truthy v = true
      · cases v with
        | arr rules =>
            have hshape : cleanConfig (.obj kvs) =
                (rules.mapM cleanRuleEntry).map
                  (fun rs => jsSet (.obj kvs) "packageRules" (.arr rs)) := by
              simp only [cleanConfig, entryProps]
              rw [hl]
              rfl
            rw [hshape] at h
            cases hm : rules.mapM cleanRuleEntry with
            | none => rw [hm] at h; cases h
            | some rs =>
                rw [hm] at h
                injection h with h
                have hkmem : "packageRules" ∈ keysOf kvs :=
                  List.mem_map.mpr ⟨_, mem_of_lookup_some hl, rfl⟩
                exact ⟨setKey kvs "packageRules" (.arr rs), h.symm,
                  keysOf_setKey_mem _ hkmem, fun k hk => lookupKv_setKey_ne _ _ hk⟩
        | null => simp [truthy] at ht
        | bool b => simp [cleanConfig, entryProps, hl, ht] at h
        | num n => simp [cleanConfig, entryProps, hl, ht] at h
        | str s => simp [cleanConfig, entryProps, hl, ht] at h
        | obj o => simp [cleanConfig, entryProps, hl, ht] at h
      · have htf : truthy v = false := by
          cases hb : truthy v
          · rfl
          · exact absurd hb ht
        have heq : cleanConfig (.obj kvs) = some (.obj kvs) := by
          simp [cleanConfig, entryProps, hl, htf]
        rw [heq] at h
        injection h with h
        exact ⟨kvs, h.symm, rfl, fun k _ => rfl⟩

/-- Witness for C10 at a concrete document. -/
theorem c10_export_frame_witness :
    cleanConfig (.obj [("labels", .arr [.str "x"]),
        ("packageRules", .arr [.obj [("groupName", .str "")]])]) =
      some (.obj [("labels", .arr [.str "x"]), ("packageRules", .arr [.obj []])])
    ∧ ((∃ kvs2, Json.obj [("labels", Json.arr [.str "x"]),
          ("packageRules", Json.arr [.obj []])] = .obj kvs2
        ∧ keysOf kvs2 = keysOf [("labels", Json.arr [.str "x"]),
            ("packageRules", Json.arr [.obj [("groupName", Json.str "")]])]
        ∧ ∀ k, k ≠ "packageRules" →
            lookupKv kvs2 k = lookupKv [("labels", Json.arr [.str "x"]),
              ("packageRules", Json.arr [.obj [("groupName", Json.str "")]])] k)
      ∧ (∀ parse stringify a, appApply parse stringify .copyClipboard a = a
          ∧ appApply parse stringify .download a = a)) :=
  ⟨rfl, c10_export_frame _ _ rfl⟩

/-! ### Claim C5 -/

/-- C5: `SwitchToStructured` parses the raw text with the strict JSON
parser; on parse failure the whole editor state — working document, view
mode and text buffer — is exactly what it was and the syntax-error alert
fires; on success the parsed value replaces the working document, the view
mode becomes structured, the text buffer is untouched and no error is
signalled.  There is no partial application. -/
theorem c5_switch_to_structured (parse : String → Option Json) (s : EditorState) :
    (parse s.jsonText = none → switchToVisualMode parse s = (s, true))
    ∧ (∀ c, parse s.jsonText = some c →
        switchToVisualMode parse s =
          ({ editableConfig := c, viewMode := .visual, jsonText := s.jsonText }, false)) := by
  constructor
  · intro h
    simp [switchToVisualMode, h]
  · intro c h
    simp [switchToVisualMode, h]

/-- Witness for C5: corrupt raw text leaves the state byte-for-byte
unchanged, in raw-text mode, with the alert fired. -/
theorem c5_switch_to_structured_witness :
    ((fun _ => (none : Option Json)) (EditorState.jsonText ⟨.obj [], .json, "\x7bbad"⟩) = none)
    ∧ switchToVisualMode (fun _ => none) ⟨.obj [], .json, "\x7bbad"⟩ =
        (⟨.obj [], .json, "\x7bbad"⟩, true) :=
  ⟨rfl, (c5_switch_to_structured (fun _ => none) ⟨.obj [], .json, "\x7bbad"⟩).1 rfl⟩

/-! ### Claim C9 -/

theorem strMk_data (s : String) : String.mk s.data = s := rfl

theorem hasDot_concat (p c : String) : hasDot (p ++ "." ++ c) = true := by
  simp [hasDot, String.data_append]

theorem dotFree_of_hasDot_false {s : String} (h : hasDot s = false) :
    ∀ ch ∈ s.data, ¬ ch = '.' := by
  intro ch hch
  simp [hasDot] at h
  exact h ch hch

theorem splitDot_no_dot {cs : List Char} (h : ∀ ch ∈ cs, ¬ ch = '.') :
    splitDot cs = [cs] := by
  induction cs with
  | nil => rfl
  | cons a t ih =>
      have ha : ¬ a = '.' := h a (List.mem_cons_self _ _)
      rw [splitDot, if_neg ha, ih (fun ch hch => h ch (List.mem_cons_of_mem _ hch))]

theorem splitDot_append {p rest : List Char} (h : ∀ ch ∈ p, ¬ ch = '.') :
    splitDot (p ++ '.' :: rest) = p :: splitDot rest := by
  induction p with
  | nil => simp [splitDot]
  | cons a t ih =>
      have ha : ¬ a = '.' := h a (List.mem_cons_self _ _)
      rw [List.cons_append, splitDot, if_neg ha,
        ih (fun ch hch => h ch (List.mem_cons_of_mem _ hch))]

theorem key_data_concat (p c : String) :
    (p ++ "." ++ c).data = p.data ++ '.' :: c.data := by
  simp [String.data_append]

/-- C9: `AddListItem(path)` appends an empty string to the list addressed
by the path, creating the intermediate containers when they are absent: an
existing top-level or one-level-nested list gets `""` appended; an absent
top-level key is created as the one-element list `[""]`; an absent nested
parent is created as an object holding the one-element list, as in
`{ lockFileMaintenance: { schedule: [""] } }`. -/
theorem c9_add_list_item :
    (∀ (kvs : List (String × Json)) (key : String) (xs : List Json),
        hasDot key = false → lookupKv kvs key = some (.arr xs) →
        addToArray (.obj kvs) key =
          some (.obj (setKey kvs key (.arr (xs ++ [.str ""])))))
    ∧ (∀ (kvs : List (String × Json)) (key : String),
        hasDot key = false → key ≠ "" → lookupKv kvs key = none →
        addToArray (.obj kvs) key =
          some (.obj (setKey kvs key (.arr [.str ""]))))
    ∧ (∀ (kvs pkvs : List (String × Json)) (p c : String) (xs : List Json),
        hasDot p = false → hasDot c = false → p ≠ "" → c ≠ "" →
        lookupKv kvs p = some (.obj pkvs) → lookupKv pkvs c = some (.arr xs) →
        addToArray (.obj kvs) (p ++ "." ++ c) =
          some (.obj (setKey kvs p (.obj (setKey pkvs c (.arr (xs ++ [.str ""])))))))
    ∧ (∀ (kvs : List (String × Json)) (p c : String),
        hasDot p = false → hasDot c = false → p ≠ "" → c ≠ "" →
        lookupKv kvs p = none →
        addToArray (.obj kvs) (p ++ "." ++ c) =
          some (.obj (setKey kvs p (.obj [(c, .arr [.str ""])])))) := by
  refine ⟨?_, ?_, ?_, ?_⟩
  · intro kvs key xs hd hl
    simp [addToArray, hd, hl, truthy]
  · intro kvs key hd _hne hl
    simp [addToArray, hd, hl, lookupKv_setKey_self, setKey_setKey]
  · intro kvs pkvs p c xs hdp hdc hp hc hl hlc
    have hsplit : splitDot (p.data ++ '.' :: c.data) = [p.data, c.data] := by
      rw [splitDot_append (dotFree_of_hasDot_false hdp),
        splitDot_no_dot (dotFree_of_hasDot_false hdc)]
    simp [addToArray, hasDot_concat, key_data_concat, hsplit, strMk_data, hp, hc, hl, hlc,
      truthy, addChildPush]
  · intro kvs p c hdp hdc hp hc hl
    have hsplit : splitDot (p.data ++ '.' :: c.data) = [p.data, c.data] := by
      rw [splitDot_append (dotFree_of_hasDot_false hdp),
        splitDot_no_dot (dotFree_of_hasDot_false hdc)]
    simp [addToArray, hasDot_concat, key_data_concat, hsplit, strMk_data, hp, hc, hl,
      truthy, addChildPush, lookupKv_setKey_self, setKey_setKey, setKey]

/-- Witness for C9: `AddListItem("lockFileMaintenance.schedule")` on a
document lacking `lockFileMaintenance` creates
`{ lockFileMaintenance: { schedule: [""] } }`. -/
theorem c9_add_list_item_witness :
    hasDot "lockFileMaintenance" = false
    ∧ hasDot "schedule" = false
    ∧ lookupKv [("enabled", Json.bool true)] "lockFileMaintenance" = none
    ∧ addToArray (.obj [("enabled", .bool true)]) ("lockFileMaintenance" ++ "." ++ "schedule") =
        some (.obj (setKey [("enabled", Json.bool true)] "lockFileMaintenance"
          (.obj [("schedule", .arr [.str ""])]))) :=
  ⟨by decide, by decide, rfl,
    c9_add_list_item.2.2.2 [("enabled", Json.bool true)] "lockFileMaintenance" "schedule"
      (by decide) (by decide) (by decide) (by decide) rfl⟩

/-! ### Claim C8 -/

/-- C8 counterexample: `RemoveListItem("labels", -1)` on a document whose
`labels` list has 2 elements is NOT a no-op, although `-1` is outside the
valid index range: `splice(-1, 1)` removes the last element. -/
theorem c8_counterexample :
    removeFromArray (.obj [("labels", .arr [.str "a", .str "b"])]) "labels" (-1) =
      some (.obj [("labels", .arr [.str "a"])])
    ∧ ¬(0 ≤ (-1 : Int) ∧ (-1 : Int) < 2)
    ∧ removeFromArray (.obj [("labels", .arr [.str "a", .str "b"])]) "labels" (-1) ≠
        some (.obj [("labels", .arr [.str "a", .str "b"])]) := by
  refine ⟨rfl, by decide, ?_⟩
  intro h
  have h2 := congrArg
    (fun o => match o with | some d => arrLenAt d "labels" | none => 0) h
  exact absurd h2 (by decide)

/-- C8 (amended): `RemoveListItem(path, index)` removes one element of the
list addressed by the path via `splice(index, 1)`: for `0 ≤ index < len`
it deletes exactly the element at position `index`; for `index ≥ len`, or
when the path does not address a list, it is a silent no-op (in particular
`RemoveListItem("labels", 5)` on a 2-element `labels` leaves it unchanged);
but a *negative* index counts from the end of the list (clamped at 0), so
on a non-empty list it deletes an element rather than being a no-op. -/
theorem c8_remove_list_item :
    (∀ (kvs : List (String × Json)) (key : String) (xs : List Json) (index : Int),
        hasDot key = false → lookupKv kvs key = some (.arr xs) →
        removeFromArray (.obj kvs) key index =
          some (.obj (setKey kvs key (.arr (jsSplice xs index))))
        ∧ ((xs.length : Int) ≤ index →
            removeFromArray (.obj kvs) key index = some (.obj kvs)))
    ∧ (∀ (kvs : List (String × Json)) (key : String) (index : Int),
        hasDot key = false →
        (∀ v, lookupKv kvs key = some v → v.isArr = false) →
        removeFromArray (.obj kvs) key index = some (.obj kvs))
    ∧ (∀ (xs : List Json) (index : Int),
        (0 ≤ index → index < xs.length → jsSplice xs index = xs.eraseIdx index.toNat)
        ∧ ((xs.length : Int) ≤ index → jsSplice xs index = xs)
        ∧ (index < 0 → 0 < xs.length →
            (jsSplice xs index).length + 1 = xs.length))
    ∧ (∀ (kvs pkvs : List (String × Json)) (p c : String) (xs : List Json) (index : Int),
        hasDot p = false → hasDot c = false → p ≠ "" → c ≠ "" →
        lookupKv kvs p = some (.obj pkvs) → lookupKv pkvs c = some (.arr xs) →
        removeFromArray (.obj kvs) (p ++ "." ++ c) index =
          some (.obj (setKey kvs p (.obj (setKey pkvs c (.arr (jsSplice xs index))))))) := by
  have hsplice_noop : ∀ (xs : List Json) (index : Int),
      (xs.length : Int) ≤ index → jsSplice xs index = xs := by
    intro xs index hge
    have h0 : ¬ index < 0 := by omega
    have hmin : min index.toNat xs.length = xs.length := by
      have : xs.length ≤ index.toNat := by omega
      omega
    simp only [jsSplice, h0, if_false, hmin]
    rw [List.take_length, List.drop_eq_nil_of_le (by omega), List.append_nil]
  refine ⟨?_, ?_, ?_, ?_⟩
  · intro kvs key xs index hd hl
    have hmain : removeFromArray (.obj kvs) key index =
        some (.obj (setKey kvs key (.arr (jsSplice xs index)))) := by
      simp [removeFromArray, hd, jsGetProp, hl, jsSet]
    refine ⟨hmain, fun hge => ?_⟩
    rw [hmain, hsplice_noop xs index hge, setKey_of_lookup_some_eq hl]
  · intro kvs key index hd hinv
    cases hl : lookupKv kvs key with
    | none => simp [removeFromArray, hd, jsGetProp, hl]
    | some v =>
        have hv := hinv v hl
        match v, hv with
        | .null, _ | .bool _, _ | .num _, _ | .str _, _ | .obj _, _ =>
            simp [removeFromArray, hd, jsGetProp, hl]
  · intro xs index
    refine ⟨?_, hsplice_noop xs index, ?_⟩
    · intro h0 hlt
      have hn : ¬ index < 0 := by omega
      have hmin : min index.toNat xs.length = index.toNat := by omega
      simp only [jsSplice, hn, if_false, hmin]
      rw [List.eraseIdx_eq_take_drop_succ]
    · intro hneg hpos
      have hs : (if index < 0 then (max ((xs.length : Int) + index) 0).toNat
          else min index.toNat xs.length) < xs.length := by
        rw [if_pos hneg]
        omega
      simp only [jsSplice]
      rw [List.length_append, List.length_take, List.length_drop]
      omega
  · intro kvs pkvs p c xs index hdp hdc hp hc hl hlc
    have hsplit : splitDot (p.data ++ '.' :: c.data) = [p.data, c.data] := by
      rw [splitDot_append (dotFree_of_hasDot_false hdp),
        splitDot_no_dot (dotFree_of_hasDot_false hdc)]
    simp [removeFromArray, hasDot_concat, key_data_concat, hsplit, strMk_data,
      hp, hc, jsGetProp, hl, hlc, truthy, jsSet]

/-- Witness for C8: `RemoveListItem("labels", 5)` on a 2-element `labels`
list is a no-op. -/
theorem c8_remove_list_item_witness :
    hasDot "labels" = false
    ∧ lookupKv [("labels", Json.arr [.str "a", .str "b"])] "labels" =
        some (.arr [.str "a", .str "b"])
    ∧ removeFromArray (.obj [("labels", .arr [.str "a", .str "b"])]) "labels" 5 =
        some (.obj [("labels", .arr [.str "a", .str "b"])]) :=
  ⟨by decide, rfl,
    (c8_remove_list_item.1 [("labels", Json.arr [.str "a", .str "b"])] "labels"
      [.str "a", .str "b"] 5 (by decide) rfl).2 (by decide)⟩

/-! ### Fetch-loop lemmas -/

theorem truthy_of_isObj {d : Json} (h : d.isObj = true) : truthy d = true := by
  match d, h with
  | .obj kvs, _ => rfl

theorem fetchLoop_hit {F : String → TryFetchResult} {pre : List String} {u : String}
    {d : Json} (hpre : ∀ v ∈ pre, isHit (F v) = false) (hu : F u = .success d)
    (hd : truthy d = true) (rest : List String) :
    ∀ le, (fetchLoop F (pre ++ u :: rest) le).1 = some d := by
  induction pre with
  | nil =>
      intro le
      simp only [List.nil_append, fetchLoop]
      rw [hu]
      simp [hd]
  | cons v vs ih =>
      intro le
      have hv := hpre v (List.mem_cons_self _ _)
      have hvs := fun w hw => hpre w (List.mem_cons_of_mem _ hw)
      rw [List.cons_append, fetchLoop]
      cases hFv : F v with
      | success e =>
          rw [hFv] at hv
          simp only [isHit] at hv
          simp only [hv, Bool.false_eq_true, if_false]
          exact ih hvs _
      | failure e => exact ih hvs _

theorem fetchAttempts_hit {F : String → TryFetchResult} {pre : List String} {u : String}
    (hpre : ∀ v ∈ pre, isHit (F v) = false) (hu : isHit (F u) = true)
    (rest : List String) :
    fetchAttempts F (pre ++ u :: rest) = pre ++ [u] := by
  induction pre with
  | nil => simp [fetchAttempts, hu]
  | cons v vs ih =>
      have hv := hpre v (List.mem_cons_self _ _)
      rw [List.cons_append, fetchAttempts, hv]
      simp only [Bool.false_eq_true, if_false]
      rw [ih (fun w hw => hpre w (List.mem_cons_of_mem _ hw))]
      rfl

theorem fetchLoop_all_fail {F : String → TryFetchResult} {urls : List String}
    (h : ∀ v ∈ urls, isHit (F v) = false) :
    ∀ le, ∃ le', fetchLoop F urls le = (none, le') := by
  induction urls with
  | nil => exact fun le => ⟨le, rfl⟩
  | cons v vs ih =>
      intro le
      have hv := h v (List.mem_cons_self _ _)
      have hvs := fun w hw => h w (List.mem_cons_of_mem _ hw)
      rw [fetchLoop]
      cases hFv : F v with
      | success e =>
          rw [hFv] at hv
          simp only [isHit] at hv
          simp only [hv, Bool.false_eq_true, if_false]
          exact ih hvs _
      | failure e => exact ih hvs _

/-! ### Claim C3 -/

/-- C3: For an input of the bare `github.com/owner/repo` shape (it
contains `github.com`, is not a raw-content URL, does not match the blob
shape, and the owner/repo regex matches), the resolver enumerates exactly
eight candidate URLs — branch `main` then `master`, each crossed with the
path list `renovate.json`, `.github/renovate.json`, `.renovaterc.json`,
`.renovaterc`, in that order — and fetches them strictly in that order:
if every candidate before some candidate fails and that candidate fetches
successfully and parses to a document, the resolver returns exactly that
parsed document and never attempts any later candidate. -/
theorem c3_bare_repo_resolution (u owner repo : String) (F : String → TryFetchResult)
    (hTrim : jsTrim u ≠ "")
    (hGit : containsSub u "github.com" = true)
    (hRaw : containsSub u "raw.githubusercontent.com" = false)
    (hBlob : blobMatch u = false)
    (hMatch : githubMatch u = some (owner, repo)) :
    candidateUrls u =
      [rawUrl owner (stripGitSuffix repo) "main" "renovate.json",
       rawUrl owner (stripGitSuffix repo) "main" ".github/renovate.json",
       rawUrl owner (stripGitSuffix repo) "main" ".renovaterc.json",
       rawUrl owner (stripGitSuffix repo) "main" ".renovaterc",
       rawUrl owner (stripGitSuffix repo) "master" "renovate.json",
       rawUrl owner (stripGitSuffix repo) "master" ".github/renovate.json",
       rawUrl owner (stripGitSuffix repo) "master" ".renovaterc.json",
       rawUrl owner (stripGitSuffix repo) "master" ".renovaterc"]
    ∧ (∀ pre uk post d,
        candidateUrls u = pre ++ uk :: post →
        (∀ v ∈ pre, ∃ e, F v = .failure e) →
        F uk = .success d → d.isObj = true →
        loadConfig F u = .loaded d
        ∧ fetchAttempts F (candidateUrls u) = pre ++ [uk]) := by
  constructor
  · simp [candidateUrls, hGit, hRaw, hBlob, getGitHubRawUrls, hMatch,
      RENOVATE_CONFIG_PATHS]
  · intro pre uk post d hdecomp hpre hu hobj
    have hd : truthy d = true := truthy_of_isObj hobj
    have hpreHit : ∀ v ∈ pre, isHit (F v) = false := by
      intro v hv
      obtain ⟨e, he⟩ := hpre v hv
      simp [isHit, he]
    constructor
    · have h1 := fetchLoop_hit hpreHit hu hd post ""
      rw [← hdecomp] at h1
      simp only [loadConfig]
      rw [if_neg hTrim]
      cases hfl : fetchLoop F (candidateUrls u) "" with
      | mk fst snd =>
          rw [hfl] at h1
          simp at h1
          rw [h1]
    · rw [hdecomp]
      exact fetchAttempts_hit hpreHit (by simp [isHit, hu, hd]) post

/-- Witness for C3: resolving `https://github.com/acme/widgets` where the
very first candidate succeeds stops after one fetch. -/
theorem c3_bare_repo_resolution_witness :
    (jsTrim "https://github.com/acme/widgets" ≠ ""
     ∧ containsSub "https://github.com/acme/widgets" "github.com" = true
     ∧ containsSub "https://github.com/acme/widgets" "raw.githubusercontent.com" = false
     ∧ blobMatch "https://github.com/acme/widgets" = false
     ∧ githubMatch "https://github.com/acme/widgets" = some ("acme", "widgets"))
    ∧ loadConfig
        (fun v => if v = "https://raw.githubusercontent.com/acme/widgets/main/renovate.json"
          then TryFetchResult.success (.obj [("enabled", .bool true)])
          else .failure "HTTP 404")
        "https://github.com/acme/widgets" = .loaded (.obj [("enabled", .bool true)])
    ∧ fetchAttempts
        (fun v => if v = "https://raw.githubusercontent.com/acme/widgets/main/renovate.json"
          then TryFetchResult.success (.obj [("enabled", .bool true)])
          else .failure "HTTP 404")
        (candidateUrls "https://github.com/acme/widgets") =
      [] ++ ["https://raw.githubusercontent.com/acme/widgets/main/renovate.json"] := by
  have h := (c3_bare_repo_resolution "https://github.com/acme/widgets" "acme" "widgets"
    (fun v => if v = "https://raw.githubusercontent.com/acme/widgets/main/renovate.json"
      then TryFetchResult.success (.obj [("enabled", .bool true)])
      else .failure "HTTP 404")
    (by decide) (by decide) (by decide) (by decide) (by decide)).2
    [] "https://raw.githubusercontent.com/acme/widgets/main/renovate.json"
    ["https://raw.githubusercontent.com/acme/widgets/main/.github/renovate.json",
     "https://raw.githubusercontent.com/acme/widgets/main/.renovaterc.json",
     "https://raw.githubusercontent.com/acme/widgets/main/.renovaterc",
     "https://raw.githubusercontent.com/acme/widgets/master/renovate.json",
     "https://raw.githubusercontent.com/acme/widgets/master/.github/renovate.json",
     "https://raw.githubusercontent.com/acme/widgets/master/.renovaterc.json",
     "https://raw.githubusercontent.com/acme/widgets/master/.renovaterc"]
    (.obj [("enabled", .bool true)]) rfl (by simp) rfl rfl
  exact ⟨⟨by decide, by decide, by decide, by decide, by decide⟩, h.1, h.2⟩

/-! ### Claim C4 -/

theorem failedMsgAssoc (x : String) :
    "Error loading config: " ++ ("Failed to load config: " ++ x) =
      "Error loading config: Failed to load config: " ++ x := by
  rw [← String.append_assoc,
    show "Error loading config: " ++ "Failed to load config: " =
      "Error loading config: Failed to load config: " from by decide]

/-- C4 counterexample: `https://github.comx/foo` is non-blank, names no
raw-content host, matches neither the blob shape nor the owner/repo
regex — yet, because it contains the substring `github.com`, the resolver
enumerates an empty candidate list and attempts no fetch at all, instead
of fetching the input verbatim once. -/
theorem c4_counterexample :
    jsTrim "https://github.comx/foo" ≠ ""
    ∧ containsSub "https://github.comx/foo" "raw.githubusercontent.com" = false
    ∧ blobMatch "https://github.comx/foo" = false
    ∧ githubMatch "https://github.comx/foo" = none
    ∧ candidateUrls "https://github.comx/foo" = []
    ∧ (∀ F, fetchAttempts F (candidateUrls "https://github.comx/foo") = [])
    ∧ fetchAttempts (fun _ => TryFetchResult.failure "HTTP 404")
        (candidateUrls "https://github.comx/foo") ≠ ["https://github.comx/foo"]
    ∧ loadConfig (fun _ => TryFetchResult.failure "HTTP 404")
        "https://github.comx/foo" =
      .failed "Error loading config: Failed to load config: " :=
  ⟨by decide, by decide, by decide, by decide, by decide,
   fun _F => rfl, by decide, rfl⟩

/-- C4 (amended): For every input whose trimmed form is non-blank and
that does not contain the substring `github.com`, the resolver uses the
input string itself, verbatim, as the single candidate URL, so exactly one
fetch of exactly that string is attempted, whose result decides the
outcome.  (An input that does contain `github.com` but matches none of
the three recognized shapes yields an empty candidate list and no fetch,
as the counterexample shows.) -/
theorem c4_verbatim_candidate (u : String) (F : String → TryFetchResult)
    (hGit : containsSub u "github.com" = false) (hTrim : jsTrim u ≠ "") :
    candidateUrls u = [u]
    ∧ fetchAttempts F (candidateUrls u) = [u]
    ∧ (∀ d, F u = .success d → truthy d = true → loadConfig F u = .loaded d)
    ∧ (∀ e, F u = .failure e → loadConfig F u =
        .failed ("Error loading config: Failed to load config: " ++
          (if e = "" then "Unknown error" else e))) := by
  have hc : candidateUrls u = [u] := by simp [candidateUrls, hGit]
  refine ⟨hc, ?_, ?_, ?_⟩
  · rw [hc]
    cases h : isHit (F u) <;> simp [fetchAttempts, h]
  · intro d hd htr
    simp only [loadConfig]
    rw [if_neg hTrim, hc]
    simp only [fetchLoop]
    rw [hd]
    simp [htr]
  · intro e he
    simp only [loadConfig]
    rw [if_neg hTrim, hc]
    simp only [fetchLoop]
    rw [he]
    simp only [fetchLoop, List.length_cons, List.length_nil]
    norm_num
    exact failedMsgAssoc _

/-- Witness for C4 (amended) at a non-GitHub URL whose fetch succeeds. -/
theorem c4_verbatim_candidate_witness :
    (containsSub "https://example.com/renovate.json" "github.com" = false
     ∧ jsTrim "https://example.com/renovate.json" ≠ "")
    ∧ candidateUrls "https://example.com/renovate.json" =
        ["https://example.com/renovate.json"]
    ∧ fetchAttempts (fun _ => TryFetchResult.success (.obj [("automerge", .bool true)]))
        (candidateUrls "https://example.com/renovate.json") =
        ["https://example.com/renovate.json"]
    ∧ loadConfig (fun _ => TryFetchResult.success (.obj [("automerge", .bool true)]))
        "https://example.com/renovate.json" =
        .loaded (.obj [("automerge", .bool true)]) := by
  have h := c4_verbatim_candidate "https://example.com/renovate.json"
    (fun _ => TryFetchResult.success (.obj [("automerge", .bool true)]))
    (by decide) (by decide)
  exact ⟨⟨by decide, by decide⟩, h.1, h.2.1, h.2.2.1 _ rfl rfl⟩

/-! ### Claim C7 -/

theorem isPrefixList_refl (l : List Char) : isPrefixList l l = true := by
  induction l with
  | nil => rfl
  | cons a t ih => simp [isPrefixList, ih]

theorem occursList_suffix (pat : List Char) :
    ∀ a : List Char, occursList pat (a ++ pat) = true := by
  intro a
  induction a with
  | nil =>
      simp only [List.nil_append]
      cases pat with
      | nil => rfl
      | cons c rest => simp [occursList, isPrefixList_refl]
  | cons x a2 ih => simp [occursList, ih]

theorem containsSub_suffix (p e : String) : containsSub (p ++ e) e = true := by
  rw [containsSub, String.data_append]
  exact occursList_suffix e.data p.data

/-- C7: When no candidate URL succeeds, the resolver fails with a single
human-readable message: with more than one candidate it enumerates the
four attempted conventional configuration paths; with exactly one
candidate it carries that candidate's own transport or parse error. -/
theorem c7_failure_messages (u : String) (F : String → TryFetchResult)
    (hTrim : jsTrim u ≠ "")
    (hfail : ∀ v ∈ candidateUrls u, isHit (F v) = false) :
    (1 < (candidateUrls u).length →
      loadConfig F u = .failed ("Error loading config: Could not find renovate config in repository. Tried: renovate.json, .github/renovate.json, .renovaterc.json, .renovaterc")
      ∧ ∀ p ∈ RENOVATE_CONFIG_PATHS,
          containsSub "Error loading config: Could not find renovate config in repository. Tried: renovate.json, .github/renovate.json, .renovaterc.json, .renovaterc" p = true)
    ∧ (∀ u0 e, candidateUrls u = [u0] → F u0 = .failure e →
        loadConfig F u = .failed ("Error loading config: Failed to load config: " ++
          (if e = "" then "Unknown error" else e))
        ∧ containsSub ("Error loading config: Failed to load config: " ++
            (if e = "" then "Unknown error" else e)) e = true) := by
  constructor
  · intro hlen
    obtain ⟨le', hfl⟩ := fetchLoop_all_fail hfail ""
    constructor
    · simp only [loadConfig]
      rw [if_neg hTrim, hfl]
      simp only [hlen, if_true]
      exact congrArg LoadOutcome.failed (by decide)
    · decide
  · intro u0 e hone hu0
    have hfl : fetchLoop F [u0] "" = (none, if e = "" then "Unknown error" else e) := by
      simp only [fetchLoop]
      rw [hu0]
    constructor
    · simp only [loadConfig]
      rw [if_neg hTrim, hone, hfl]
      simp only [List.length_cons, List.length_nil]
      norm_num
      exact failedMsgAssoc _
    · by_cases he : e = ""
      · subst he
        have : ("Error loading config: Failed to load config: " ++
            (if ("" : String) = "" then "Unknown error" else "")) =
            ("Error loading config: Failed to load config: " ++ "Unknown error" ++ "") := by
          decide
        rw [this]
        exact containsSub_suffix _ _
      · rw [if_neg he]
        exact containsSub_suffix _ _

/-- Witness for C7: resolving a bare repository URL where every candidate
fails yields the message enumerating the four conventional paths. -/
theorem c7_failure_messages_witness :
    (jsTrim "https://github.com/acme/widgets" ≠ ""
     ∧ ∀ v ∈ candidateUrls "https://github.com/acme/widgets",
         isHit ((fun _ => TryFetchResult.failure "HTTP 404") v) = false)
    ∧ (1 < (candidateUrls "https://github.com/acme/widgets").length)
    ∧ loadConfig (fun _ => TryFetchResult.failure "HTTP 404")
        "https://github.com/acme/widgets" =
      .failed "Error loading config: Could not find renovate config in repository. Tried: renovate.json, .github/renovate.json, .renovaterc.json, .renovaterc"
    ∧ ∀ p ∈ RENOVATE_CONFIG_PATHS,
        containsSub "Error loading config: Could not find renovate config in repository. Tried: renovate.json, .github/renovate.json, .renovaterc.json, .renovaterc" p = true := by
  have h := (c7_failure_messages "https://github.com/acme/widgets"
    (fun _ => TryFetchResult.failure "HTTP 404") (by decide)
    (by intro v _hv; rfl)).1 (by decide)
  exact ⟨⟨by decide, fun v _hv => rfl⟩, by decide, h.1, h.2⟩

end LordRenovate
